import Mathlib

/-!
Verification of the primoPoker server engine: a shallow embedding of the
poker package (cards, deck, hand evaluation) and the game package (players,
the table state machine, the manager registry), with theorems checking the
specification claims against the code.

Conventions of the embedding:
- Go int64 chip amounts are modelled as Int (no overflow is relevant at the
  magnitudes involved); card ranks and suits are Nat (ranks 2..14, suits 0..3
  in the order Hearts, Diamonds, Clubs, Spades).
- Go maps are modelled as association lists; lookup finds the first binding.
  Loops over maps in the source only perform per-entry independent updates,
  so iteration order is immaterial.
- The deck's random shuffle is modelled by passing the shuffled card list as
  an explicit parameter to the operations that reshuffle.
- Wall-clock fields (timestamps, timeouts) carry no game logic and are
  omitted; the deferred next-hand timer is asynchronous and outside the
  synchronous call semantics modelled here.
-/

namespace Poker

/-- A playing card: rank 2..14, suit 0..3 (Hearts, Diamonds, Clubs, Spades). -/
structure Card where
  rank : Nat
  suit : Nat
deriving DecidableEq, Repr

/-- Rank categories of a 5-card hand, in the source's ascending order. -/
inductive HandRank where
  | highCard
  | onePair
  | twoPair
  | threeOfAKind
  | straight
  | flush
  | fullHouse
  | fourOfAKind
  | straightFlush
  | royalFlush
deriving DecidableEq, Repr

/-- Numeric weight of a category, as in the Go iota constants. -/
def HandRank.toNat : HandRank → Nat
  | .highCard => 0
  | .onePair => 1
  | .twoPair => 2
  | .threeOfAKind => 3
  | .straight => 4
  | .flush => 5
  | .fullHouse => 6
  | .fourOfAKind => 7
  | .straightFlush => 8
  | .royalFlush => 9

/-- An evaluated hand: the (sorted) cards, category, kickers, scalar value. -/
structure Hand where
  cards : List Card
  rank : HandRank
  kickers : List Nat
  value : Nat
deriving DecidableEq, Repr

/-- Number of cards of a given rank (the ranks tally of Hand.evaluate). -/
def countRank (cards : List Card) (r : Nat) : Nat :=
  (cards.filter (fun c => c.rank == r)).length

/-- Number of cards of a given suit (the suits tally of Hand.evaluate). -/
def countSuit (cards : List Card) (s : Nat) : Nat :=
  (cards.filter (fun c => c.suit == s)).length

/-- Ranks from Ace down to Two, the iteration order of the Go loops. -/
def ranksDescending : List Nat :=
  [14, 13, 12, 11, 10, 9, 8, 7, 6, 5, 4, 3, 2]

/-- The descending scan of Hand.checkStraight: tracks the current run length
and the high card of the run, returning the high card of the first 5-run. -/
def straightScan (ranks : Nat → Nat) : List Nat → Nat → Nat → Option Nat
  | [], _, _ => none
  | r :: rest, consec, high =>
    let consec' := if ranks r > 0 then consec + 1 else 0
    let high' := if ranks r > 0 && consec == 0 then r else high
    if consec' == 5 then some high' else straightScan ranks rest consec' high'

/-- Hand.checkStraight: normal straights by descending scan, then the
Ace-low wheel with Five as the high card. -/
def checkStraight (ranks : Nat → Nat) : Bool × Nat :=
  match straightScan ranks ranksDescending 0 0 with
  | some high => (true, high)
  | none =>
    if ranks 14 > 0 && ranks 2 > 0 && ranks 3 > 0 && ranks 4 > 0 && ranks 5 > 0 then
      (true, 5)
    else
      (false, 0)

/-- The multiplier loop of Hand.kickerValue, iterating from the last kicker
with multiplier 1 and multiplying by 100 at each step. -/
def kickerValueAux : List Nat → Nat → Nat
  | [], _ => 0
  | k :: rest, m => k * m + kickerValueAux rest (m * 100)

/-- Hand.kickerValue: positional base-100 encoding of the kicker list. -/
def kickerValue (kickers : List Nat) : Nat :=
  kickerValueAux kickers.reverse 1

/-- Insert a card into a list sorted by strictly descending rank preference. -/
def insertCardDesc (c : Card) : List Card → List Card
  | [] => [c]
  | d :: rest => if c.rank > d.rank then c :: d :: rest else d :: insertCardDesc c rest

/-- Sort cards by rank descending (the sort.Slice call of NewHand). -/
def sortCardsDesc : List Card → List Card
  | [] => []
  | c :: rest => insertCardDesc c (sortCardsDesc rest)

/-- Hand.evaluate together with NewHand's sorting: classify the 5 cards and
compute the scalar value exactly as the source does. -/
def NewHand (cards5 : List Card) : Hand :=
  let cards := sortCardsDesc cards5
  let ranks := fun r => countRank cards r
  let flushB := [0, 1, 2, 3].any (fun s => countSuit cards s == 5)
  let straightB := (checkStraight ranks).1
  let straightHigh := (checkStraight ranks).2
  if straightB && flushB then
    if straightHigh == 14 && ((cards.get? 1).map Card.rank == some 13) then
      { cards := cards, rank := .royalFlush, kickers := [],
        value := 9 * 100000000 + 14 }
    else
      { cards := cards, rank := .straightFlush, kickers := [],
        value := 8 * 100000000 + straightHigh }
  else
    let quads := ranksDescending.filter (fun r => ranks r == 4)
    let trips := ranksDescending.filter (fun r => ranks r == 3)
    let pairs := ranksDescending.filter (fun r => ranks r == 2)
    let kickers := ranksDescending.filter (fun r => ranks r == 1)
    if quads.length == 1 then
      { cards := cards, rank := .fourOfAKind, kickers := quads.headD 0 :: kickers,
        value := 7 * 100000000 + quads.headD 0 * 1000000 + kickers.headD 0 }
    else if trips.length == 1 && pairs.length == 1 then
      { cards := cards, rank := .fullHouse, kickers := [trips.headD 0, pairs.headD 0],
        value := 6 * 100000000 + trips.headD 0 * 1000000 + pairs.headD 0 }
    else if flushB then
      { cards := cards, rank := .flush, kickers := kickers,
        value := 5 * 100000000 + kickerValue kickers }
    else if straightB then
      { cards := cards, rank := .straight, kickers := [straightHigh],
        value := 4 * 100000000 + straightHigh }
    else if trips.length == 1 then
      { cards := cards, rank := .threeOfAKind, kickers := trips.headD 0 :: kickers,
        value := 3 * 100000000 + trips.headD 0 * 1000000 + kickerValue kickers }
    else if pairs.length == 2 then
      { cards := cards, rank := .twoPair, kickers := pairs ++ kickers,
        value := 2 * 100000000 + pairs.headD 0 * 1000000 +
          (pairs.getD 1 0) * 10000 + kickers.headD 0 }
    else if pairs.length == 1 then
      { cards := cards, rank := .onePair, kickers := pairs.headD 0 :: kickers,
        value := 1 * 100000000 + pairs.headD 0 * 1000000 + kickerValue kickers }
    else
      { cards := cards, rank := .highCard, kickers := kickers,
        value := 0 * 100000000 + kickerValue kickers }

/-- CompareHands: sign of the value comparison. -/
def CompareHands (h1 h2 : Hand) : Int :=
  if h1.value > h2.value then 1
  else if h1.value < h2.value then -1
  else 0

/-- The backtracking enumeration of generateCombinations: all r-element
selections in index-increasing order, combinations containing the head card
first, exactly the order the Go recursion emits them. -/
def combinationsFrom : List Card → Nat → List (List Card)
  | _, 0 => [[]]
  | [], _ + 1 => []
  | c :: rest, r + 1 =>
    (combinationsFrom rest r).map (fun combo => c :: combo) ++
      combinationsFrom rest (r + 1)

/-- generateCombinations over a card list. -/
def generateCombinations (cards : List Card) (r : Nat) : List (List Card) :=
  combinationsFrom cards r

/-- The loop body of GetBestHand: keep the current best unless the new hand
compares strictly greater. -/
def GetBestHandAux : List (List Card) → Option Hand → Option Hand
  | [], best => best
  | combo :: rest, best =>
    let hand := NewHand combo
    let best' :=
      match best with
      | none => some hand
      | some b => if CompareHands hand b > 0 then some hand else some b
    GetBestHandAux rest best'

/-- GetBestHand: best 5-card hand among all combinations (none only when no
combination exists, where the Go code would return a nil pointer). -/
def GetBestHand (cards : List Card) : Option Hand :=
  GetBestHandAux (generateCombinations cards 5) none

/-- NewDeck's canonical card order: suits Hearts..Spades outer, ranks Two..Ace
inner, 52 cards before any shuffle. -/
def NewDeckCards : List Card :=
  [0, 1, 2, 3].flatMap (fun s => (ranksDescending.reverse).map (fun r => ⟨r, s⟩))

/-- Deck.Deal, modelled state-passing: on an empty deck the error is returned
and the deck is unmodified; otherwise the top card is removed and returned. -/
def DeckDeal (d : List Card) : Except String Card × List Card :=
  match d with
  | [] => (.error "cannot deal from empty deck", d)
  | c :: rest => (.ok c, rest)

/-- The dealing loop of Deck.DealMultiple, threading the deck. -/
def dealLoop : List Card → Nat → Except String (List Card) × List Card
  | d, 0 => (.ok [], d)
  | d, n + 1 =>
    match DeckDeal d with
    | (.error e, d') => (.error e, d')
    | (.ok c, d') =>
      match dealLoop d' n with
      | (.error e, d'') => (.error e, d'')
      | (.ok cs, d'') => (.ok (c :: cs), d'')

/-- Deck.DealMultiple: the upfront length check, then the dealing loop. -/
def DealMultiple (d : List Card) (count : Nat) : Except String (List Card) × List Card :=
  if d.length < count then (.error "not enough cards in deck", d)
  else dealLoop d count

end Poker

namespace PGame

/-- Game phases, in the source's iota order. -/
inductive GamePhase where
  | waitingForPlayers
  | preFlop
  | flop
  | turn
  | river
  | showdown
  | gameOver
deriving DecidableEq, Repr

/-- Player actions, in the source's iota order. -/
inductive PlayerAction where
  | fold
  | check
  | call
  | raise
  | allIn
deriving DecidableEq, Repr

/-- An entry of the action log (the wall-clock Time field is omitted). -/
structure ActionRec where
  playerID : String
  action : PlayerAction
  amount : Int
deriving DecidableEq, Repr

/-- Per-seat player state. -/
structure Player where
  id : String
  username : String
  chipCount : Int
  holeCards : List Poker.Card
  currentBet : Int
  totalBet : Int
  hasFolded : Bool
  isAllIn : Bool
  isActive : Bool
  seatPosition : Nat
  lastAction : Option ActionRec
  connected : Bool
deriving DecidableEq, Repr

/-- NewPlayer. -/
def NewPlayer (id username : String) (buyIn : Int) (seatPosition : Nat) : Player :=
  { id := id, username := username, chipCount := buyIn, holeCards := [],
    currentBet := 0, totalBet := 0, hasFolded := false, isAllIn := false,
    isActive := true, seatPosition := seatPosition, lastAction := none,
    connected := true }

/-- Player.CanAct. -/
def Player.canAct (p : Player) : Bool :=
  p.isActive && !p.hasFolded && !p.isAllIn && p.connected

/-- Player.Bet: check funds, move chips into the current and total bets, set
the all-in flag when the stack reaches exactly zero. -/
def Player.bet (p : Player) (amount : Int) : Except String Player :=
  if amount > p.chipCount then .error "insufficient chips"
  else
    let p' : Player :=
      { p with chipCount := p.chipCount - amount,
               currentBet := p.currentBet + amount,
               totalBet := p.totalBet + amount }
    if p'.chipCount = 0 then .ok { p' with isAllIn := true } else .ok p'

/-- Player.Fold. -/
def Player.foldHand (p : Player) : Player :=
  { p with hasFolded := true }

/-- Player.ResetForNewHand: clear per-hand state and recompute activity. -/
def Player.resetForNewHand (p : Player) : Player :=
  { p with holeCards := [], currentBet := 0, totalBet := 0, hasFolded := false,
           isAllIn := false, lastAction := none,
           isActive := decide (p.chipCount > 0) && p.connected }

/-- A side pot. -/
structure SidePot where
  amount : Int
  eligiblePlayers : List String
deriving DecidableEq, Repr

/-- Game configuration (wall-clock timeout fields omitted). -/
structure GameConfig where
  maxTablesPerUser : Nat
  maxPlayersPerTable : Nat
  minPlayersPerTable : Nat
  defaultBuyIn : Int
  maxBuyIn : Int
  minBuyIn : Int
  smallBlind : Int
  bigBlind : Int
deriving DecidableEq, Repr

/-- The table state (timestamps omitted; the deck is the remaining card list). -/
structure Game where
  id : String
  name : String
  maxPlayers : Nat
  minPlayers : Nat
  smallBlind : Int
  bigBlind : Int
  buyIn : Int
  players : List (String × Player)
  playerOrder : List String
  phase : GamePhase
  communityCards : List Poker.Card
  pot : Int
  sidePots : List SidePot
  deck : List Poker.Card
  dealerPos : Nat
  smallBlindPos : Nat
  bigBlindPos : Nat
  currentPlayer : Nat
  lastRaise : Int
  minRaise : Int
  actions : List ActionRec
  handNumber : Nat
deriving DecidableEq, Repr

/-- Go map read: the value of the first binding of the key, if any. -/
def alookup {β : Type} : List (String × β) → String → Option β
  | [], _ => none
  | kv :: rest, k => if kv.1 == k then some kv.2 else alookup rest k

/-- Go map write through a held pointer: rewrite the bindings of the key. -/
def aupdate {β : Type} (ps : List (String × β)) (k : String) (f : β → β) :
    List (String × β) :=
  ps.map (fun kv => if kv.1 == k then (kv.1, f kv.2) else kv)

/-- Read a player of the game. -/
def Game.getPlayer (g : Game) (pid : String) : Option Player :=
  alookup g.players pid

/-- Mutate a player of the game in place. -/
def Game.setPlayer (g : Game) (pid : String) (f : Player → Player) : Game :=
  { g with players := aupdate g.players pid f }

/-- NewGame. -/
def NewGame (id name : String) (config : GameConfig) : Game :=
  { id := id, name := name, maxPlayers := config.maxPlayersPerTable,
    minPlayers := config.minPlayersPerTable, smallBlind := config.smallBlind,
    bigBlind := config.bigBlind, buyIn := config.defaultBuyIn, players := [],
    playerOrder := [], phase := .waitingForPlayers, communityCards := [],
    pot := 0, sidePots := [], deck := Poker.NewDeckCards, dealerPos := 0,
    smallBlindPos := 0, bigBlindPos := 0, currentPlayer := 0, lastRaise := 0,
    minRaise := config.bigBlind, actions := [], handNumber := 0 }

/-- getCurrentPlayerID. -/
def Game.getCurrentPlayerID (g : Game) : String :=
  if g.playerOrder.length = 0 || g.currentPlayer ≥ g.playerOrder.length then ""
  else g.playerOrder.getD g.currentPlayer ""

/-- getActivePlayers: the non-folded players present in the map, in seat
order. -/
def Game.getActivePlayers (g : Game) : List Player :=
  g.playerOrder.filterMap (fun pid =>
    match alookup g.players pid with
    | some p => if !p.hasFolded then some p else none
    | none => none)

/-- isBettingRoundComplete: no active player may both act and still owe an
action or chips to the street-high bet. -/
def Game.isBettingRoundComplete (g : Game) : Bool :=
  let active := g.getActivePlayers
  if active.length ≤ 1 then true
  else
    active.all (fun p =>
      !(p.canAct && (p.lastAction.isNone || decide (p.currentBet < g.lastRaise))))

/-- Whether the player seated at a position can act (nil players cannot). -/
def canActAt (g : Game) (pos : Nat) : Bool :=
  match g.playerOrder.get? pos with
  | some pid =>
    match alookup g.players pid with
    | some p => p.canAct
    | none => false
  | none => false

/-- The search loop of moveToNextActivePlayer: advance until a player can act
or the scan wraps to the starting position. -/
def moveNextAux (g : Game) (startPos : Nat) : Nat → Nat → Nat
  | 0, pos => pos
  | fuel + 1, pos =>
    if canActAt g pos then pos
    else
      let pos' := (pos + 1) % g.playerOrder.length
      if pos' = startPos then pos' else moveNextAux g startPos fuel pos'

/-- moveToNextActivePlayer. -/
def Game.moveToNextActivePlayer (g : Game) : Game :=
  { g with currentPlayer :=
      moveNextAux g g.currentPlayer (g.playerOrder.length + 2) g.currentPlayer }

/-- moveToNextPlayer. -/
def Game.moveToNextPlayer (g : Game) : Game :=
  Game.moveToNextActivePlayer
    { g with currentPlayer := (g.currentPlayer + 1) % g.playerOrder.length }

/-- Deck.Deal with the error ignored, as the dealing helpers call it: an empty
deck yields the zero-value card and leaves the deck empty. -/
def dealOne (deck : List Poker.Card) : Poker.Card × List Poker.Card :=
  match deck with
  | [] => (⟨0, 0⟩, [])
  | c :: rest => (c, rest)

/-- dealFlop: burn one card, deal three community cards. -/
def Game.dealFlop (g : Game) : Game :=
  let d1 := (dealOne g.deck).2
  let c1 := (dealOne d1).1
  let d2 := (dealOne d1).2
  let c2 := (dealOne d2).1
  let d3 := (dealOne d2).2
  let c3 := (dealOne d3).1
  let d4 := (dealOne d3).2
  { g with deck := d4, communityCards := g.communityCards ++ [c1, c2, c3] }

/-- dealTurn: burn one card, deal one community card. -/
def Game.dealTurn (g : Game) : Game :=
  let d1 := (dealOne g.deck).2
  let c1 := (dealOne d1).1
  let d2 := (dealOne d1).2
  { g with deck := d2, communityCards := g.communityCards ++ [c1] }

/-- dealRiver: burn one card, deal one community card. -/
def Game.dealRiver (g : Game) : Game :=
  let d1 := (dealOne g.deck).2
  let c1 := (dealOne d1).1
  let d2 := (dealOne d1).2
  { g with deck := d2, communityCards := g.communityCards ++ [c1] }

/-- calculateSidePots, as the source implements it: a single pot holding the
whole main pot, eligible to every non-folded player in seat order. -/
def Game.calculateSidePots (g : Game) : Game :=
  { g with sidePots :=
      [{ amount := g.pot,
         eligiblePlayers := g.playerOrder.filter (fun pid =>
           match alookup g.players pid with
           | some p => !p.hasFolded
           | none => false) }] }

/-- The accumulation loop of determineWinners over candidate players: skip
players without 2 hole cards or without 5 community cards, keep the best hand
and the list of players tied with it. -/
def winnersFold (g : Game) (players : List Player) :
    Option Poker.Hand × List Player :=
  players.foldl
    (fun acc player =>
      if player.holeCards.length ≠ 2 || g.communityCards.length ≠ 5 then acc
      else
        match Poker.GetBestHand (player.holeCards ++ g.communityCards) with
        | none => acc
        | some playerHand =>
          match acc.1 with
          | none => (some playerHand, [player])
          | some bestHand =>
            if Poker.CompareHands playerHand bestHand > 0 then
              (some playerHand, [player])
            else if Poker.CompareHands playerHand bestHand = 0 then
              (acc.1, acc.2 ++ [player])
            else acc)
    (none, [])

/-- determineWinners. -/
def Game.determineWinners (g : Game) (players : List Player) : List Player :=
  if players.length = 1 then players else (winnersFold g players).2

/-- Distribute one side pot among the winners: an even integer share each,
with the remainder chips handed to the earliest winners (truncated division
as in Go int64 arithmetic). -/
def distributeSidePot (g : Game) (winners : List Player) (sp : SidePot) : Game :=
  let potShare := Int.tdiv sp.amount (winners.length : Int)
  let remainder := Int.tmod sp.amount (winners.length : Int)
  winners.enum.foldl
    (fun g iw =>
      g.setPlayer iw.2.id (fun p =>
        { p with chipCount :=
            p.chipCount + potShare + (if (iw.1 : Int) < remainder then 1 else 0) }))
    g

/-- distributePots. Division by a zero winner count panics in Go; that case is
modelled as none. -/
def Game.distributePots (g : Game) : Option Game :=
  match g.getActivePlayers with
  | [] => some g
  | [winner] =>
    some { g.setPlayer winner.id
            (fun p => { p with chipCount := p.chipCount + g.pot }) with pot := 0 }
  | _ =>
    let winners := g.determineWinners g.getActivePlayers
    if winners.length = 0 && g.sidePots.length ≠ 0 then none
    else
      some { g.sidePots.foldl (fun g sp => distributeSidePot g winners sp) g with
             pot := 0 }

/-- One step of the removeEliminatedPlayers loop at index i: remove a player
with no chips who is also disconnected, adjusting the stored positions. -/
def removeEliminatedStep (g : Game) (i : Nat) : Game :=
  match g.playerOrder.get? i with
  | none => g
  | some pid =>
    match alookup g.players pid with
    | none => g
    | some p =>
      if p.chipCount ≤ 0 && !p.connected then
        { g with
          players := g.players.filter (fun kv => !(kv.1 == pid)),
          playerOrder := g.playerOrder.eraseIdx i,
          dealerPos := if g.dealerPos > i then g.dealerPos - 1 else g.dealerPos,
          smallBlindPos :=
            if g.smallBlindPos > i then g.smallBlindPos - 1 else g.smallBlindPos,
          bigBlindPos :=
            if g.bigBlindPos > i then g.bigBlindPos - 1 else g.bigBlindPos,
          currentPlayer :=
            if g.currentPlayer > i then g.currentPlayer - 1 else g.currentPlayer }
      else g

/-- removeEliminatedPlayers: the descending index loop. -/
def Game.removeEliminatedPlayers (g : Game) : Game :=
  ((List.range g.playerOrder.length).reverse).foldl removeEliminatedStep g

/-- endHand: settle the hand. The asynchronous deferred next-hand start is
outside the synchronous semantics. none models the Go panic inside
distributePots. -/
def Game.endHand (g : Game) : Option Game :=
  let g1 := Game.calculateSidePots { g with phase := .showdown }
  match g1.distributePots with
  | none => none
  | some g2 =>
    let g3 := g2.removeEliminatedPlayers
    if g3.getActivePlayers.length < g3.minPlayers then
      some { g3 with phase := .gameOver }
    else some g3

/-- After the phase switch: seat the player to act at the first active player
after the dealer. -/
def Game.setFirstAfterDealer (g : Game) : Game :=
  Game.moveToNextActivePlayer
    { g with currentPlayer := (g.dealerPos + 1) % g.playerOrder.length }

/-- advancePhase: reset current bets and the street-high bet, deal the next
street, and reposition the player to act; from River, settle the hand. -/
def Game.advancePhase (g : Game) : Option Game :=
  let g0 : Game :=
    { g with players := g.players.map (fun kv => (kv.1, { kv.2 with currentBet := 0 })),
             lastRaise := 0 }
  match g0.phase with
  | .preFlop => some (Game.setFirstAfterDealer { g0.dealFlop with phase := .flop })
  | .flop => some (Game.setFirstAfterDealer { g0.dealTurn with phase := .turn })
  | .turn => some (Game.setFirstAfterDealer { g0.dealRiver with phase := .river })
  | .river => Game.endHand { g0 with phase := .showdown }
  | _ => some (Game.setFirstAfterDealer g0)

/-- advanceGame: end the hand, advance the phase, or pass the turn on. -/
def Game.advanceGame (g : Game) : Option Game :=
  if g.getActivePlayers.length ≤ 1 then g.endHand
  else if g.isBettingRoundComplete then g.advancePhase
  else some g.moveToNextPlayer

/-- Replace a player's record in place. -/
def Game.setPlayerTo (g : Game) (pid : String) (p : Player) : Game :=
  g.setPlayer pid (fun _ => p)

/-- The action switch of processAction: validate and apply a single action,
returning the updated game and the action as recorded (a short call converts
to AllIn). -/
def applyAction (g : Game) (playerID : String) (player : Player)
    (action : PlayerAction) (amount : Int) : Except String (Game × PlayerAction) :=
  match action with
  | .fold => .ok (g.setPlayer playerID Player.foldHand, .fold)
  | .check =>
    if player.currentBet < g.lastRaise then .error "cannot check, must call or raise"
    else .ok (g, .check)
  | .call =>
    let callAmount0 := g.lastRaise - player.currentBet
    let callAmount :=
      if callAmount0 > player.chipCount then player.chipCount else callAmount0
    let recorded : PlayerAction :=
      if callAmount0 > player.chipCount then .allIn else .call
    match player.bet callAmount with
    | .error e => .error e
    | .ok p' =>
      .ok ({ g.setPlayerTo playerID p' with pot := g.pot + callAmount }, recorded)
  | .raise =>
    if amount < g.minRaise then .error "minimum raise not met"
    else
      let totalBet := g.lastRaise + amount
      let betAmount := totalBet - player.currentBet
      if betAmount > player.chipCount then .error "insufficient chips for raise"
      else
        match player.bet betAmount with
        | .error e => .error e
        | .ok p' =>
          .ok ({ g.setPlayerTo playerID p' with
                 pot := g.pot + betAmount,
                 lastRaise := totalBet,
                 minRaise := amount }, .raise)
  | .allIn =>
    let allInAmount := player.chipCount
    match player.bet allInAmount with
    | .error e => .error e
    | .ok p' =>
      let g1 : Game := { g.setPlayerTo playerID p' with pot := g.pot + allInAmount }
      let g2 : Game :=
        if p'.currentBet > g1.lastRaise then { g1 with lastRaise := p'.currentBet }
        else g1
      .ok (g2, .allIn)

/-- processAction: the validate, apply, record, advance entry point. The Go
panic inside settlement (division by a zero winner count) is surfaced as an
error. -/
def Game.processAction (g : Game) (playerID : String) (action : PlayerAction)
    (amount : Int) : Except String Game :=
  if g.phase = .waitingForPlayers ∨ g.phase = .gameOver then
    .error "cannot act during this phase"
  else if playerID ≠ g.getCurrentPlayerID then .error "not your turn"
  else
    match alookup g.players playerID with
    | none => .error "player not in game"
    | some player =>
      if !player.canAct then .error "player cannot act"
      else
        match applyAction g playerID player action amount with
        | .error e => .error e
        | .ok ga =>
          let actionRecord : ActionRec :=
            { playerID := playerID, action := ga.2, amount := amount }
          let g1 := ga.1.setPlayer playerID
            (fun p => { p with lastAction := some actionRecord })
          let g2 : Game := { g1 with actions := g1.actions ++ [actionRecord] }
          match g2.advanceGame with
          | none => .error "panic in pot distribution"
          | some g3 => .ok g3

/-- The active-dealer search loop of moveDealerButton (at most one full lap). -/
def dealerSearch (g : Game) : Nat → Nat → Nat
  | 0, pos => pos
  | fuel + 1, pos =>
    let act :=
      match g.playerOrder.get? pos with
      | some pid =>
        match alookup g.players pid with
        | some p => p.isActive
        | none => false
      | none => false
    if act then pos else dealerSearch g fuel ((pos + 1) % g.playerOrder.length)

/-- moveDealerButton: advance the button to the next active seat; heads-up the
dealer posts the small blind, otherwise the blinds sit left of the dealer. -/
def Game.moveDealerButton (g : Game) : Game :=
  if g.playerOrder.length < 2 then g
  else
    let d := dealerSearch g g.playerOrder.length
      ((g.dealerPos + 1) % g.playerOrder.length)
    if g.playerOrder.length = 2 then
      { g with
        dealerPos := d,
        smallBlindPos := d,
        bigBlindPos := (d + 1) % g.playerOrder.length }
    else
      { g with
        dealerPos := d,
        smallBlindPos := (d + 1) % g.playerOrder.length,
        bigBlindPos := (d + 2) % g.playerOrder.length }

/-- One pass of dealHoleCards: one card to each active player in seat order. -/
def dealHolePass (st : Game) : Game :=
  st.playerOrder.foldl
    (fun g pid =>
      match alookup g.players pid with
      | some p =>
        if p.isActive then
          { g.setPlayer pid
              (fun q => { q with holeCards := q.holeCards ++ [(dealOne g.deck).1] })
            with deck := (dealOne g.deck).2 }
        else g
      | none => g)
    st

/-- dealHoleCards: two passes, one card per player per pass. -/
def Game.dealHoleCards (g : Game) : Game :=
  dealHolePass (dealHolePass g)

/-- Post one blind: bet min(blind, stack) for the player seated at the given
position and add that amount to the pot (the Bet error value is discarded by
the source and cannot occur since the amount is capped at the stack). -/
def postOneBlind (g : Game) (pos : Nat) (blind : Int) : Game :=
  match g.playerOrder.get? pos with
  | none => g
  | some pid =>
    match alookup g.players pid with
    | none => g
    | some player =>
      let amount := min blind player.chipCount
      let g1 :=
        match player.bet amount with
        | .ok p' => g.setPlayerTo pid p'
        | .error _ => g
      { g1 with pot := g1.pot + amount }

/-- postBlinds. -/
def Game.postBlinds (g : Game) : Game :=
  let g1 := postOneBlind g g.smallBlindPos g.smallBlind
  postOneBlind g1 g.bigBlindPos g.bigBlind

/-- startNewHand: the per-hand reset, button movement, reshuffle (modelled by
the supplied shuffled deck), dealing, blinds, and first player to act. -/
def Game.startNewHand (g : Game) (shuffledDeck : List Poker.Card) : Game :=
  let g1 : Game :=
    { g with handNumber := g.handNumber + 1, phase := .preFlop, pot := 0,
             sidePots := [], communityCards := [], actions := [],
             lastRaise := g.bigBlind, minRaise := g.bigBlind,
             players := g.players.map (fun kv => (kv.1, kv.2.resetForNewHand)) }
  let g2 := g1.moveDealerButton
  let g3 : Game := { g2 with deck := shuffledDeck }
  let g4 := g3.dealHoleCards
  let g5 := g4.postBlinds
  Game.moveToNextActivePlayer
    { g5 with currentPlayer := (g5.bigBlindPos + 1) % g5.playerOrder.length }

/-- AddPlayer: capacity and duplicate checks, append to the seat order, and
start the first hand when the configured minimum is reached while waiting. -/
def Game.addPlayer (g : Game) (player : Player) (shuffledDeck : List Poker.Card) :
    Except String Game :=
  if g.players.length ≥ g.maxPlayers then .error "game is full"
  else if (alookup g.players player.id).isSome then .error "player already in game"
  else
    let g1 : Game :=
      { g with players := g.players ++ [(player.id, player)],
               playerOrder := g.playerOrder ++ [player.id] }
    if g1.players.length ≥ g1.minPlayers ∧ g1.phase = .waitingForPlayers then
      .ok (g1.startNewHand shuffledDeck)
    else .ok g1

/-- RemovePlayer: mark the player disconnected and inactive; if it is their
turn, attempt the automatic fold through processAction, whose error return is
discarded by the source (the fold in fact always errors with CannotAct since
the player was just disconnected). -/
def Game.removePlayer (g : Game) (playerID : String) : Except String Game :=
  match alookup g.players playerID with
  | none => .error "player not in game"
  | some _ =>
    let g1 := g.setPlayer playerID
      (fun p => { p with connected := false, isActive := false })
    if g1.getCurrentPlayerID = playerID ∧ g1.phase ≠ .waitingForPlayers then
      match g1.processAction playerID .fold 0 with
      | .ok g2 => .ok g2
      | .error _ => .ok g1
    else .ok g1

/-- A recorded action in a snapshot. -/
structure ActionState where
  action : PlayerAction
  amount : Int
deriving DecidableEq, Repr

/-- A player's public state in a snapshot. -/
structure PlayerState where
  id : String
  username : String
  chipCount : Int
  holeCards : List Poker.Card
  currentBet : Int
  hasFolded : Bool
  isAllIn : Bool
  seatPosition : Nat
  connected : Bool
  lastAction : Option ActionState
deriving DecidableEq, Repr

/-- The snapshot sent to clients (the wall-clock LastActivity is omitted). -/
structure GameState where
  gameID : String
  phase : GamePhase
  pot : Int
  communityCards : List Poker.Card
  players : List PlayerState
  currentPlayer : String
  handNumber : Nat
  canAct : Bool
deriving DecidableEq, Repr

/-- GetGameState: the viewer-scoped snapshot; hole cards appear only in the
requesting player's own entry. -/
def Game.GetGameState (g : Game) (playerID : String) : GameState :=
  { gameID := g.id, phase := g.phase, pot := g.pot,
    communityCards := g.communityCards,
    currentPlayer := g.getCurrentPlayerID, handNumber := g.handNumber,
    canAct := g.getCurrentPlayerID == playerID,
    players := g.playerOrder.filterMap (fun pid =>
      match alookup g.players pid with
      | none => none
      | some player => some
        { id := player.id, username := player.username,
          chipCount := player.chipCount,
          holeCards := if pid == playerID then player.holeCards else [],
          currentBet := player.currentBet, hasFolded := player.hasFolded,
          isAllIn := player.isAllIn, seatPosition := player.seatPosition,
          connected := player.connected,
          lastAction := player.lastAction.map
            (fun a => { action := a.action, amount := a.amount }) }) }

/-- The manager registry: live games and the player-to-games index. -/
structure Manager where
  games : List (String × Game)
  players : List (String × List String)
  config : GameConfig
deriving DecidableEq, Repr

/-- The default configuration of NewManager. -/
def defaultConfig : GameConfig :=
  { maxTablesPerUser := 3, maxPlayersPerTable := 10, minPlayersPerTable := 2,
    defaultBuyIn := 10000, maxBuyIn := 50000, minBuyIn := 2000,
    smallBlind := 50, bigBlind := 100 }

/-- NewManager. -/
def NewManager : Manager :=
  { games := [], players := [], config := defaultConfig }

/-- Reading the player-to-games index: a missing key reads as the nil slice. -/
def Manager.gamesOf (m : Manager) (pid : String) : List String :=
  match alookup m.players pid with
  | some l => l
  | none => []

/-- Write a key of the player-to-games index (insert or replace). -/
def setIndex (ps : List (String × List String)) (pid : String) (v : List String) :
    List (String × List String) :=
  if (alookup ps pid).isSome then
    ps.map (fun kv => if kv.1 == pid then (kv.1, v) else kv)
  else ps ++ [(pid, v)]

/-- CreateGame. The functional options are modelled by passing the merged
configuration directly. -/
def Manager.CreateGame (m : Manager) (gameID name : String) (config : GameConfig) :
    Except String Manager :=
  if (alookup m.games gameID).isSome then .error "game already exists"
  else .ok { m with games := m.games ++ [(gameID, NewGame gameID name config)] }

/-- findAvailableSeat: the lowest seat index not occupied, or -1. -/
def findAvailableSeat (game : Game) : Int :=
  let occupied := game.players.map (fun kv => kv.2.seatPosition)
  match (List.range game.maxPlayers).find? (fun s => !(occupied.contains s)) with
  | some s => (s : Int)
  | none => -1

/-- Remove the first occurrence of an element (the break-on-found loop of
LeaveGame). -/
def removeFirst : List String → String → List String
  | [], _ => []
  | x :: rest, y => if x == y then rest else x :: removeFirst rest y

/-- JoinGame: table-count and buy-in checks, seat allocation, player creation,
delegation to AddPlayer, and recording of the join in the index. -/
def Manager.JoinGame (m : Manager) (gameID playerID username : String)
    (buyIn : Int) (shuffledDeck : List Poker.Card) : Except String Manager :=
  match alookup m.games gameID with
  | none => .error "game not found"
  | some game =>
    if (m.gamesOf playerID).length ≥ m.config.maxTablesPerUser then
      .error "too many tables"
    else if buyIn < m.config.minBuyIn ∨ buyIn > m.config.maxBuyIn then
      .error "invalid buy-in amount"
    else
      let seatPosition := findAvailableSeat game
      if seatPosition = -1 then .error "game is full"
      else
        let player := NewPlayer playerID username buyIn seatPosition.toNat
        match game.addPlayer player shuffledDeck with
        | .error e => .error e
        | .ok game' =>
          .ok { m with
                games := aupdate m.games gameID (fun _ => game'),
                players := setIndex m.players playerID
                  (m.gamesOf playerID ++ [gameID]) }

/-- LeaveGame: delegate to RemovePlayer, drop the index entry, and delete the
game when its player map is empty. -/
def Manager.LeaveGame (m : Manager) (gameID playerID : String) :
    Except String Manager :=
  match alookup m.games gameID with
  | none => .error "game not found"
  | some game =>
    match game.removePlayer playerID with
    | .error e => .error e
    | .ok game' =>
      let m1 : Manager :=
        { m with games := aupdate m.games gameID (fun _ => game'),
                 players := setIndex m.players playerID
                   (removeFirst (m.gamesOf playerID) gameID) }
      if game'.players.length = 0 then
        .ok { m1 with games := m1.games.filter (fun kv => !(kv.1 == gameID)) }
      else .ok m1

/-- Manager.ProcessAction: thin delegation to the named game. -/
def Manager.ProcessAction (m : Manager) (gameID playerID : String)
    (action : PlayerAction) (amount : Int) : Except String Manager :=
  match alookup m.games gameID with
  | none => .error "game not found"
  | some game =>
    match game.processAction playerID action amount with
    | .error e => .error e
    | .ok game' => .ok { m with games := aupdate m.games gameID (fun _ => game') }

/-- CleanupInactiveGames: remove games with no players whose last activity is
stale; the wall-clock staleness test is modelled by the supplied candidate
list. -/
def Manager.CleanupInactiveGames (m : Manager) (stale : List String) : Manager :=
  { m with games := m.games.filter (fun kv =>
      !(stale.contains kv.1 && kv.2.players.length == 0)) }

/-- One Manager operation, as invoked by the transport layer. -/
inductive MStep : Manager → Manager → Prop where
  | createGame (m : Manager) (gid name : String) (config : GameConfig)
      (m' : Manager) : m.CreateGame gid name config = .ok m' → MStep m m'
  | joinGame (m : Manager) (gid pid uname : String) (buyIn : Int)
      (deck : List Poker.Card) (m' : Manager) :
      m.JoinGame gid pid uname buyIn deck = .ok m' → MStep m m'
  | leaveGame (m : Manager) (gid pid : String) (m' : Manager) :
      m.LeaveGame gid pid = .ok m' → MStep m m'
  | processAct (m : Manager) (gid pid : String) (a : PlayerAction) (amt : Int)
      (m' : Manager) : m.ProcessAction gid pid a amt = .ok m' → MStep m m'
  | cleanup (m : Manager) (stale : List String) :
      MStep m (m.CleanupInactiveGames stale)

/-- Manager states reachable from a fresh manager by manager operations. -/
inductive ReachableM : Manager → Prop where
  | init : ReachableM NewManager
  | step {m m' : Manager} : ReachableM m → MStep m m' → ReachableM m'

/-- Insert into an ascending list. -/
def insertIntAsc (x : Int) : List Int → List Int
  | [] => [x]
  | y :: rest => if x ≤ y then x :: y :: rest else y :: insertIntAsc x rest

/-- Sort ascending. -/
def sortIntsAsc : List Int → List Int
  | [] => []
  | x :: rest => insertIntAsc x (sortIntsAsc rest)

/-- The tier loop of the specification's side-pot algorithm: for each
threshold, the pot takes each player's contribution between the previous
threshold and this one, and eligibility is every non-folded player who
contributed at least the threshold. -/
def specTiers (contribs : List (String × Player)) : List Int → Int → List SidePot
  | [], _ => []
  | t :: rest, lo =>
    { amount := (contribs.map
        (fun pp => min pp.2.totalBet t - min pp.2.totalBet lo)).sum,
      eligiblePlayers := (contribs.filter
        (fun pp => !pp.2.hasFolded && decide (pp.2.totalBet ≥ t))).map
        (fun pp => pp.1) } :: specTiers contribs rest t

/-- Modelled from the spec: the mandated tiered side-pot construction of
Settlement in the specification, which the source does not implement (its
calculateSidePots is the documented single-pot simplification). Tiers are the
distinct all-in contribution amounts seen this hand, lowest to highest, closed
off by the maximum contribution so the tier pots exhaust the total pot; each
tier's pot is the sum of all contributions falling up to its threshold, and
its eligible set is every non-folded player who contributed at least that
threshold. -/
def specSidePots (g : Game) : List SidePot :=
  let contribs := g.playerOrder.filterMap
    (fun pid => (alookup g.players pid).map (fun p => (pid, p)))
  let allInAmts := (contribs.filter (fun pp => pp.2.isAllIn)).map
    (fun pp => pp.2.totalBet)
  let maxC := (contribs.map (fun pp => pp.2.totalBet)).foldl max 0
  specTiers contribs (sortIntsAsc (allInAmts ++ [maxC]).dedup) 0

/-- Total chips held in a player map. -/
def chipSum (ps : List (String × Player)) : Int :=
  (ps.map (fun kv => kv.2.chipCount)).sum

/-- The per-player reset advancePhase applies: clear the current-street bet. -/
def clearBet (p : Player) : Player :=
  { p with currentBet := 0 }

/-- Total chips held in the players' stacks. -/
def sumChips (g : Game) : Int :=
  chipSum g.players

/-- Structural sanity of the player map: distinct keys, each binding keyed by
the player's own id (as Go map semantics and AddPlayer guarantee). -/
def GWf (g : Game) : Prop :=
  (g.players.map Prod.fst).Nodup ∧ ∀ kv ∈ g.players, kv.1 = kv.2.id

/-- No player's stack nor the pot is negative. -/
def ChipsNonneg (g : Game) : Prop :=
  (∀ kv ∈ g.players, (0 : Int) ≤ kv.2.chipCount) ∧ (0 : Int) ≤ g.pot

/-- The current actor does not already bet above the street-high, and the
minimum raise is not negative: what validation guarantees between actions. -/
def BettingSane (g : Game) : Prop :=
  (0 : Int) ≤ g.minRaise ∧
  ∀ p, alookup g.players (g.getCurrentPlayerID) = some p →
    p.currentBet ≤ g.lastRaise

/-- The player is listed in the seat order and present, connected. -/
def ConnMember (pid : String) (g : Game) : Prop :=
  pid ∈ g.playerOrder ∧ ∃ p, alookup g.players pid = some p ∧ p.connected = true

/-- The forward registry invariant: every game recorded in a player's index
entry exists and seats that player, still connected. -/
def MInv (m : Manager) : Prop :=
  ∀ pid gid, gid ∈ m.gamesOf pid →
    ∃ g, alookup m.games gid = some g ∧ ConnMember pid g

/-- Structural well-formedness of the registry maintained alongside the
forward invariant: game keys are distinct and no player's game list repeats
a game. -/
def MWf (m : Manager) : Prop :=
  (m.games.map Prod.fst).Nodup ∧
  (∀ pid, (m.gamesOf pid).Nodup) ∧
  MInv m

/-- First position whose player can act, scanning from a position with
wrap-around for at most the given number of seats. -/
def scanFirstFrom (g : Game) : Nat → Nat → Option Nat
  | 0, _ => none
  | fuel + 1, pos =>
    if canActAt g pos then some pos
    else scanFirstFrom g fuel ((pos + 1) % g.playerOrder.length)

/-- Unwrap an ok game, defaulting on error. -/
def okOr (e : Except String Game) (d : Game) : Game :=
  match e with
  | .ok g => g
  | .error _ => d

/-- Unwrap an ok manager, defaulting on error. -/
def okOrM (e : Except String Manager) (d : Manager) : Manager :=
  match e with
  | .ok m => m
  | .error _ => d

/-- Heads-up scenario (the spec's §8 scenario): blinds 50/100, two players
with 10000 chips each; the default configuration has exactly these values. -/
def hu0 : Game := NewGame "g1" "Table" defaultConfig

/-- After the first player joins. -/
def hu1 : Game := okOr (hu0.addPlayer (NewPlayer "p1" "alice" 10000 0) Poker.NewDeckCards) hu0

/-- After the second player joins: the hand auto-starts. -/
def hu2 : Game := okOr (hu1.addPlayer (NewPlayer "p2" "bob" 10000 1) Poker.NewDeckCards) hu1

/-- The small blind (dealer) calls the additional 50. -/
def hu3 : Game := okOr (hu2.processAction "p2" .call 0) hu2

/-- The big blind checks: the pre-flop round completes. -/
def hu4 : Game := okOr (hu3.processAction "p1" .check 0) hu3

/-- On the flop, the first player checks once. -/
def hu5 : Game := okOr (hu4.processAction "p1" .check 0) hu4

/-- Variant line: pre-flop, the small blind raises by 300. -/
def rg3 : Game := okOr (hu2.processAction "p2" .raise 300) hu2

/-- The big blind calls the raise: the pre-flop round completes. -/
def rg4 : Game := okOr (rg3.processAction "p1" .call 0) rg3

/-- Three-handed configuration for the all-in settlement scenario. -/
def cfg3 : GameConfig :=
  { maxTablesPerUser := 3, maxPlayersPerTable := 10, minPlayersPerTable := 3,
    defaultBuyIn := 10000, maxBuyIn := 50000, minBuyIn := 2000,
    smallBlind := 50, bigBlind := 100 }

/-- A stacked deck: p1 draws a king-high heart flush, p2 and p3 unpaired
junk; community 9h 5h 4h Jd Tc. -/
def deckC2 : List Poker.Card :=
  [⟨13, 0⟩, ⟨2, 2⟩, ⟨3, 3⟩, ⟨12, 0⟩, ⟨7, 1⟩, ⟨8, 1⟩,
   ⟨2, 3⟩, ⟨9, 0⟩, ⟨5, 0⟩, ⟨4, 0⟩, ⟨6, 2⟩, ⟨11, 1⟩, ⟨7, 3⟩, ⟨10, 2⟩]

/-- Stacks 300, 5000, 5000; the hand auto-starts on the third join. -/
def sg3 : Game :=
  let s0 := NewGame "g" "T" cfg3
  let s1 := okOr (s0.addPlayer (NewPlayer "p1" "a" 300 0) deckC2) s0
  let s2 := okOr (s1.addPlayer (NewPlayer "p2" "b" 5000 1) deckC2) s1
  okOr (s2.addPlayer (NewPlayer "p3" "c" 5000 2) deckC2) s2

/-- p2 raises to 500 total, p3 calls, p1 is all-in for 300: streets then check
through to settlement. -/
def sg9 : Game :=
  let s4 := okOr (sg3.processAction "p2" .raise 400) sg3
  let s5 := okOr (s4.processAction "p3" .call 0) s4
  let s6 := okOr (s5.processAction "p1" .allIn 0) s5
  let s7 := okOr (s6.processAction "p3" .check 0) s6
  let s8 := okOr (s7.processAction "p3" .check 0) s7
  okOr (s8.processAction "p3" .check 0) s8

/-- The same hand mid-way: right after p1's all-in for 300, pot 1300, nobody
folded, all three still seated. -/
def sg6 : Game :=
  let s4 := okOr (sg3.processAction "p2" .raise 400) sg3
  let s5 := okOr (s4.processAction "p3" .call 0) s4
  okOr (s5.processAction "p1" .allIn 0) s5

/-- Manager trace: create a table, one player joins. -/
def mj2 : Manager :=
  let n1 := okOrM (NewManager.CreateGame "g" "T" defaultConfig) NewManager
  okOrM (n1.JoinGame "g" "p1" "alice" 10000 Poker.NewDeckCards) n1

/-- The player then leaves the table. -/
def mj3 : Manager := okOrM (mj2.LeaveGame "g" "p1") mj2

end PGame

open PGame

set_option maxRecDepth 100000

theorem alookup_cons {β : Type} (kv : String × β) (rest : List (String × β))
    (k : String) :
    alookup (kv :: rest) k = if kv.1 == k then some kv.2 else alookup rest k := rfl

theorem aupdate_cons {β : Type} (kv : String × β) (rest : List (String × β))
    (k : String) (f : β → β) :
    aupdate (kv :: rest) k f =
      (if kv.1 == k then (kv.1, f kv.2) else kv) :: aupdate rest k f := rfl

theorem alookup_map_values {β γ : Type} (ps : List (String × β)) (f : β → γ)
    (k : String) :
    alookup (ps.map (fun kv => (kv.1, f kv.2))) k = (alookup ps k).map f := by
  induction ps with
  | nil => rfl
  | cons kv rest ih =>
    rw [List.map_cons, alookup_cons, alookup_cons]
    by_cases h : kv.1 == k
    · rw [if_pos h, if_pos h]
      rfl
    · rw [if_neg (by simpa using h), if_neg (by simpa using h), ih]

theorem alookup_aupdate_self {β : Type} (ps : List (String × β)) (k : String)
    (f : β → β) :
    alookup (aupdate ps k f) k = (alookup ps k).map f := by
  induction ps with
  | nil => rfl
  | cons kv rest ih =>
    rw [aupdate_cons]
    by_cases h : kv.1 == k
    · rw [if_pos h, alookup_cons, alookup_cons, if_pos h, if_pos h]
      rfl
    · rw [if_neg (by simpa using h), alookup_cons, alookup_cons,
        if_neg (by simpa using h), if_neg (by simpa using h), ih]

theorem alookup_aupdate_ne {β : Type} (ps : List (String × β)) (k k' : String)
    (f : β → β) (h : k' ≠ k) :
    alookup (aupdate ps k f) k' = alookup ps k' := by
  induction ps with
  | nil => rfl
  | cons kv rest ih =>
    rw [aupdate_cons]
    by_cases hk : kv.1 == k
    · have hk1 : kv.1 = k := by simpa using hk
      have hk' : ¬(kv.1 == k') = true := by
        simp only [beq_iff_eq, hk1]
        exact fun hc => h hc.symm
      rw [if_pos hk, alookup_cons, alookup_cons]
      simp only [if_neg hk']
      exact ih
    · rw [if_neg (by simpa using hk), alookup_cons, alookup_cons]
      by_cases hk' : kv.1 == k'
      · rw [if_pos hk', if_pos hk']
      · rw [if_neg (by simpa using hk'), if_neg (by simpa using hk'), ih]

theorem aupdate_keys {β : Type} (ps : List (String × β)) (k : String) (f : β → β) :
    (aupdate ps k f).map Prod.fst = ps.map Prod.fst := by
  induction ps with
  | nil => rfl
  | cons kv rest ih =>
    rw [aupdate_cons, List.map_cons, List.map_cons, ih]
    by_cases h : kv.1 == k
    · rw [if_pos h]
    · rw [if_neg (by simpa using h)]

theorem alookup_append_some {β : Type} (ps qs : List (String × β)) (k : String)
    (v : β) (h : alookup ps k = some v) :
    alookup (ps ++ qs) k = some v := by
  induction ps with
  | nil => exact absurd h (by simp [alookup])
  | cons kv rest ih =>
    rw [List.cons_append, alookup_cons]
    rw [alookup_cons] at h
    by_cases hk : kv.1 == k
    · rw [if_pos hk] at h ⊢
      exact h
    · rw [if_neg (by simpa using hk)] at h ⊢
      exact ih h

theorem alookup_append_none {β : Type} (ps qs : List (String × β)) (k : String)
    (h : alookup ps k = none) :
    alookup (ps ++ qs) k = alookup qs k := by
  induction ps with
  | nil => rfl
  | cons kv rest ih =>
    rw [List.cons_append, alookup_cons]
    rw [alookup_cons] at h
    by_cases hk : kv.1 == k
    · rw [if_pos hk] at h
      exact absurd h (by simp)
    · rw [if_neg (by simpa using hk)] at h ⊢
      exact ih h

theorem alookup_isSome_iff {β : Type} (ps : List (String × β)) (k : String) :
    (alookup ps k).isSome ↔ k ∈ ps.map Prod.fst := by
  induction ps with
  | nil => simp [alookup]
  | cons kv rest ih =>
    rw [alookup_cons, List.map_cons]
    by_cases hk : kv.1 == k
    · have hk1 : kv.1 = k := by simpa using hk
      simp [if_pos hk, hk1]
    · have hne : k ≠ kv.1 := by
        intro hc
        exact absurd (by simpa using hc.symm) hk
      rw [if_neg (by simpa using hk)]
      simp [ih, hne]

theorem alookup_mem {β : Type} (ps : List (String × β)) (k : String) (v : β)
    (h : alookup ps k = some v) : (k, v) ∈ ps := by
  induction ps with
  | nil => exact absurd h (by simp [alookup])
  | cons kv rest ih =>
    rw [alookup_cons] at h
    by_cases hk : kv.1 == k
    · rw [if_pos hk, Option.some.injEq] at h
      have hk1 : kv.1 = k := by simpa using hk
      have hkv : (k, v) = kv := by rw [← hk1, ← h]
      rw [hkv]
      exact List.mem_cons_self kv rest
    · rw [if_neg (by simpa using hk)] at h
      exact List.mem_cons_of_mem kv (ih h)

theorem aupdate_of_not_mem {β : Type} (ps : List (String × β)) (k : String)
    (f : β → β) (h : k ∉ ps.map Prod.fst) : aupdate ps k f = ps := by
  induction ps with
  | nil => rfl
  | cons kv rest ih =>
    simp only [List.map_cons, List.mem_cons, not_or] at h
    have hk : ¬(kv.1 == k) = true := by
      simp only [beq_iff_eq]
      exact fun hc => h.1 hc.symm
    rw [aupdate_cons, if_neg hk, ih h.2]

/-- Claim C1: the claim states that a strictly higher rank category always
yields a strictly higher scalar Value. The code violates it: a mere high-card
hand 7-5-4-3-2 evaluates to value 705040302, above the full house 2-2-2-3-3
at 602000003, because kickerValue weights the top of five kickers by 100^4,
overflowing the 10^8 category weight. The theorem evaluates the evaluator at
this failing input. -/
theorem hand_value_breaks_category_order :
    (Poker.NewHand [⟨2, 0⟩, ⟨2, 1⟩, ⟨2, 2⟩, ⟨3, 0⟩, ⟨3, 1⟩]).rank = .fullHouse ∧
    (Poker.NewHand [⟨7, 0⟩, ⟨5, 1⟩, ⟨4, 2⟩, ⟨3, 3⟩, ⟨2, 0⟩]).rank = .highCard ∧
    Poker.HandRank.toNat .fullHouse > Poker.HandRank.toNat .highCard ∧
    (Poker.NewHand [⟨2, 0⟩, ⟨2, 1⟩, ⟨2, 2⟩, ⟨3, 0⟩, ⟨3, 1⟩]).value = 602000003 ∧
    (Poker.NewHand [⟨7, 0⟩, ⟨5, 1⟩, ⟨4, 2⟩, ⟨3, 3⟩, ⟨2, 0⟩]).value = 705040302 ∧
    (Poker.NewHand [⟨2, 0⟩, ⟨2, 1⟩, ⟨2, 2⟩, ⟨3, 0⟩, ⟨3, 1⟩]).value <
      (Poker.NewHand [⟨7, 0⟩, ⟨5, 1⟩, ⟨4, 2⟩, ⟨3, 3⟩, ⟨2, 0⟩]).value := by
  decide

/-- Claim C7: in the default-configuration heads-up game (blinds 50/100, two
players with 10000 each), the second AddPlayer auto-starts the hand in
PreFlop, the dealer posts the small blind 50 and the other player the big
blind 100; after the small blind calls the additional 50 and the big blind
checks, the phase is Flop, the pot 200, and both current-street bets are 0. -/
theorem heads_up_scenario :
    hu2.phase = .preFlop ∧
    hu2.smallBlindPos = hu2.dealerPos ∧
    hu2.playerOrder.getD hu2.smallBlindPos "" = "p2" ∧
    hu2.playerOrder.getD hu2.bigBlindPos "" = "p1" ∧
    (alookup hu2.players "p1").map Player.currentBet = some 100 ∧
    (alookup hu2.players "p2").map Player.currentBet = some 50 ∧
    (alookup hu3.players "p2").map Player.currentBet = some 100 ∧
    (alookup hu3.players "p2").map Player.chipCount = some 9900 ∧
    hu4.phase = .flop ∧
    hu4.pot = 200 ∧
    (alookup hu4.players "p1").map Player.currentBet = some 0 ∧
    (alookup hu4.players "p2").map Player.currentBet = some 0 := by
  decide

/-- Claim C4: the claim states the betting round never completes while a
player who CanAct has not acted this street. The code violates it: on the
flop of the heads-up trace, p2 can act and has not acted on that street, yet
after p1's single check (the only flop action logged) the game advances
straight to the Turn, because isBettingRoundComplete tests the LastAction
pointer which persists from the previous street. The theorem evaluates the
trace at this failing input. -/
theorem betting_round_skips_player :
    hu4.phase = .flop ∧
    (alookup hu4.players "p2").map Player.canAct = some true ∧
    (alookup hu4.players "p2").map (fun p => p.lastAction.isSome) = some true ∧
    hu5.phase = .turn ∧
    hu5.actions = hu4.actions ++ [{ playerID := "p1", action := .check, amount := 0 }] := by
  decide

/-- Claim C5 counterexample: after the pre-flop round in which the small
blind raised by 300 completes, the game advances to the Flop but the minimum
raise increment is still 300, not the big blind 100: advancePhase never
resets MinRaise, refuting the claim as stated. -/
theorem advancePhase_minRaise_cex :
    rg3.phase = .preFlop ∧
    rg3.minRaise = 300 ∧
    rg4.phase = .flop ∧
    rg4.lastRaise = 0 ∧
    rg4.bigBlind = 100 ∧
    rg4.minRaise = 300 ∧
    rg4.minRaise ≠ rg4.bigBlind := by
  decide

/-- Claim C2 counterexample: in the settled three-handed hand with p1 all-in
for 300 and p2, p3 contributing 500 each (pot 1300, nobody folded), the code
records a single side pot holding the entire 1300 with all three players
eligible, whereas the claim's tier construction yields a 900 tier (threshold
300, all three eligible) and a 400 tier (only p2 and p3 eligible); the all-in
player in fact received the whole 1300 at settlement, 400 more than any
distribution compatible with the claim allows. -/
theorem calculateSidePots_single_pot_cex :
    sg9.phase = .showdown ∧
    (alookup sg9.players "p1").map Player.isAllIn = some true ∧
    (alookup sg9.players "p1").map Player.totalBet = some 300 ∧
    (alookup sg9.players "p2").map Player.totalBet = some 500 ∧
    (alookup sg9.players "p3").map Player.totalBet = some 500 ∧
    sg9.sidePots = [{ amount := 1300, eligiblePlayers := ["p1", "p2", "p3"] }] ∧
    specSidePots sg9 = [{ amount := 900, eligiblePlayers := ["p1", "p2", "p3"] },
                        { amount := 400, eligiblePlayers := ["p2", "p3"] }] ∧
    sg9.sidePots ≠ specSidePots sg9 ∧
    (alookup sg9.players "p1").map Player.chipCount = some 1300 := by
  decide

/-- Claim C6 counterexample: create a table, let p1 join, then let p1 leave.
Afterwards p1 is still seated in the game's seat order (RemovePlayer only
marks the player disconnected), but the game is no longer in p1's index
entry, refuting the stated iff. -/
theorem manager_iff_invariant_cex :
    (alookup mj3.games "g").map Game.playerOrder = some ["p1"] ∧
    mj3.gamesOf "p1" = [] ∧
    ¬(("p1" ∈ ["p1"]) ↔ ("g" ∈ mj3.gamesOf "p1")) := by
  decide

/-- Claim C2 amended: at settlement the Game builds exactly one side-pot tier
holding the entire pot, whose eligible set is exactly the non-folded seated
players regardless of contribution (membership characterised in both
directions, so an all-in player contests the entire pot), and the sum of the
tier pots equals the total pot. -/
theorem sidepots_amended (g : Game) :
    ((g.calculateSidePots).sidePots.map SidePot.amount).sum = g.pot ∧
    (g.calculateSidePots).sidePots.length = 1 ∧
    ∀ sp ∈ (g.calculateSidePots).sidePots, sp.amount = g.pot ∧
      ∀ pid, pid ∈ sp.eligiblePlayers ↔
        (pid ∈ g.playerOrder ∧
          ∃ pl, alookup g.players pid = some pl ∧ pl.hasFolded = false) := by
  refine ⟨by simp [Game.calculateSidePots], by simp [Game.calculateSidePots], ?_⟩
  intro sp hsp
  simp only [Game.calculateSidePots, List.mem_singleton] at hsp
  subst hsp
  refine ⟨rfl, ?_⟩
  intro pid
  constructor
  · intro hpid
    rw [List.mem_filter] at hpid
    refine ⟨hpid.1, ?_⟩
    have h2 := hpid.2
    rcases hl : alookup g.players pid with _ | pl
    · rw [hl] at h2
      exact absurd h2 (by simp)
    · rw [hl] at h2
      refine ⟨pl, rfl, ?_⟩
      simpa using h2
  · rintro ⟨hmem, pl, hl, hf⟩
    refine List.mem_filter.2 ⟨hmem, ?_⟩
    show (match alookup g.players pid with
      | some p => !p.hasFolded
      | none => false) = true
    rw [hl]
    simp [hf]

/-- Witness for the amended claim C2 mid-way through the three-handed all-in
hand (p1 all-in for 300, pot 1300): the single 1300 tier's eligibility is
characterised for the all-in player p1, who is seated and non-folded and hence
eligible for the entire pot. -/
theorem sidepots_amended_witness :
    ((sg6.calculateSidePots).sidePots.map SidePot.amount).sum = sg6.pot ∧
    (sg6.calculateSidePots).sidePots.length = 1 ∧
    ("p1" ∈ ({ amount := 1300, eligiblePlayers := ["p1", "p2", "p3"] }
        : SidePot).eligiblePlayers ↔
      ("p1" ∈ sg6.playerOrder ∧
        ∃ pl, alookup sg6.players "p1" = some pl ∧ pl.hasFolded = false)) := by
  have h := sidepots_amended sg6
  have hm : ({ amount := 1300, eligiblePlayers := ["p1", "p2", "p3"] } : SidePot)
      ∈ (sg6.calculateSidePots).sidePots := by decide
  exact ⟨h.1, h.2.1, (h.2.2 _ hm).2 "p1"⟩

/-- Claim C10: the state snapshot never reveals another player's hole cards:
any hole cards appearing in a snapshot for viewer v are v's own, and the
snapshot for v is unchanged when any other player's hole cards are replaced
arbitrarily (noninterference), in every phase including Showdown. -/
theorem snapshot_hides_hole_cards (g : Game) (v p : String)
    (cards : List Poker.Card) (hne : p ≠ v) :
    (∀ st ∈ (g.GetGameState v).players, st.holeCards ≠ [] →
        ∃ q, alookup g.players v = some q ∧ st.holeCards = q.holeCards) ∧
    Game.GetGameState (g.setPlayer p (fun q => { q with holeCards := cards })) v =
      g.GetGameState v := by
  constructor
  · intro st hst hcards
    simp only [Game.GetGameState, List.mem_filterMap] at hst
    obtain ⟨pid, hpid, hfn⟩ := hst
    rcases hl : alookup g.players pid with _ | player
    · rw [hl] at hfn
      exact absurd hfn (by simp)
    · rw [hl, Option.some.injEq] at hfn
      subst hfn
      by_cases hv : (pid == v) = true
      · have hv1 : pid = v := by simpa using hv
        subst hv1
        exact ⟨player, hl, by simp [hv]⟩
      · exfalso
        apply hcards
        simp [hv]
  · simp only [Game.GetGameState]
    have hcur : (g.setPlayer p
        (fun q => { q with holeCards := cards })).getCurrentPlayerID =
        g.getCurrentPlayerID := rfl
    rw [hcur]
    have hord : (g.setPlayer p
        (fun q => { q with holeCards := cards })).playerOrder = g.playerOrder := rfl
    rw [hord]
    congr 1
    apply List.filterMap_congr
    intro pid _
    by_cases hp : pid = p
    · subst hp
      have hup := alookup_aupdate_self g.players pid
        (fun q => { q with holeCards := cards })
      simp only [Game.setPlayer]
      rw [hup]
      rcases hl : alookup g.players pid with _ | player
      · rfl
      · have hpv : ¬(pid == v) = true := by
          simp only [beq_iff_eq]
          exact hne
        simp [hpv]
    · have hup := alookup_aupdate_ne g.players p pid
        (fun q => { q with holeCards := cards }) hp
      simp only [Game.setPlayer]
      rw [hup]

/-- Witness for claim C10: replacing the other player's hole cards does not
change the snapshot the viewer receives. -/
theorem snapshot_hides_hole_cards_witness :
    Game.GetGameState
        (hu2.setPlayer "p2" (fun q => { q with holeCards := [⟨14, 0⟩] })) "p1" =
      hu2.GetGameState "p1" :=
  (snapshot_hides_hole_cards hu2 "p1" "p2" [⟨14, 0⟩] (by decide)).2

theorem combinationsFrom_sublist (cards : List Poker.Card) (r : Nat)
    (s : List Poker.Card) :
    s ∈ Poker.combinationsFrom cards r ↔ s.Sublist cards ∧ s.length = r := by
  induction cards generalizing r s with
  | nil =>
    cases r with
    | zero =>
      simp only [Poker.combinationsFrom, List.mem_singleton, List.sublist_nil]
      constructor
      · rintro rfl
        exact ⟨rfl, rfl⟩
      · rintro ⟨rfl, _⟩
        rfl
    | succ k =>
      constructor
      · intro h
        exact absurd h (List.not_mem_nil s)
      · rintro ⟨hsub, hlen⟩
        rw [List.sublist_nil] at hsub
        subst hsub
        simp at hlen
  | cons c rest ih =>
    cases r with
    | zero =>
      simp only [Poker.combinationsFrom, List.mem_singleton]
      constructor
      · rintro rfl
        exact ⟨List.nil_sublist _, rfl⟩
      · rintro ⟨_, hlen⟩
        exact List.length_eq_zero.mp hlen
    | succ k =>
      simp only [Poker.combinationsFrom, List.mem_append, List.mem_map]
      constructor
      · rintro (⟨t, ht, rfl⟩ | hs)
        · obtain ⟨hsub, hlen⟩ := (ih k t).1 ht
          exact ⟨List.Sublist.cons₂ c hsub, by simp [hlen]⟩
        · obtain ⟨hsub, hlen⟩ := (ih (k + 1) s).1 hs
          exact ⟨List.Sublist.cons c hsub, hlen⟩
      · rintro ⟨hsub, hlen⟩
        cases hsub with
        | cons _ hsub2 =>
          exact Or.inr ((ih (k + 1) s).2 ⟨hsub2, hlen⟩)
        | cons₂ _ hsub2 =>
          rename_i t
          refine Or.inl ⟨t, (ih k t).2 ⟨hsub2, ?_⟩, rfl⟩
          simpa using hlen

theorem combinationsFrom_length (cards : List Poker.Card) (r : Nat) :
    (Poker.combinationsFrom cards r).length = Nat.choose cards.length r := by
  induction cards generalizing r with
  | nil => cases r <;> simp [Poker.combinationsFrom]
  | cons c rest ih =>
    cases r with
    | zero => simp [Poker.combinationsFrom]
    | succ k =>
      simp only [Poker.combinationsFrom, List.length_append, List.length_map, ih,
        List.length_cons, Nat.choose_succ_succ]

theorem compareHands_pos_iff (h1 h2 : Poker.Hand) :
    Poker.CompareHands h1 h2 > 0 ↔ h2.value < h1.value := by
  unfold Poker.CompareHands
  split_ifs with ha hb <;> constructor <;> intro h <;> omega

theorem getBestHandAux_cons (combo : List Poker.Card)
    (rest : List (List Poker.Card)) (b : Poker.Hand) :
    Poker.GetBestHandAux (combo :: rest) (some b) =
      Poker.GetBestHandAux rest
        (if Poker.CompareHands (Poker.NewHand combo) b > 0
         then some (Poker.NewHand combo) else some b) := by
  rw [Poker.GetBestHandAux]

theorem getBestHandAux_spec (combos : List (List Poker.Card)) (b : Poker.Hand) :
    ∃ l1 l2 r, Poker.GetBestHandAux combos (some b) = some r ∧
      b :: combos.map Poker.NewHand = l1 ++ r :: l2 ∧
      (∀ x ∈ l1, x.value < r.value) ∧ (∀ x ∈ l2, x.value ≤ r.value) := by
  induction combos generalizing b with
  | nil => exact ⟨[], [], b, rfl, rfl, by simp, by simp⟩
  | cons combo rest ih =>
    by_cases hcmp : Poker.CompareHands (Poker.NewHand combo) b > 0
    · obtain ⟨l1, l2, r, hres, hdec, hlt, hle⟩ := ih (Poker.NewHand combo)
      have hbr : b.value < r.value := by
        have hb : b.value < (Poker.NewHand combo).value :=
          (compareHands_pos_iff _ _).1 hcmp
        cases l1 with
        | nil =>
          have hr : Poker.NewHand combo = r := by
            have h0 := hdec
            rw [List.nil_append] at h0
            exact (List.cons.inj h0).1
          rw [← hr]
          exact hb
        | cons h1 t1 =>
          have hh1 : h1 = Poker.NewHand combo := by
            have h0 := hdec
            rw [List.cons_append] at h0
            exact (List.cons.inj h0).1.symm
          have h2 := hlt h1 (List.mem_cons_self _ _)
          rw [hh1] at h2
          omega
      refine ⟨b :: l1, l2, r, ?_, ?_, ?_, hle⟩
      · rw [getBestHandAux_cons, if_pos hcmp]
        exact hres
      · rw [List.map_cons, List.cons_append, ← hdec]
      · intro x hx
        rcases List.mem_cons.1 hx with rfl | hx2
        · exact hbr
        · exact hlt x hx2
    · obtain ⟨l1, l2, r, hres, hdec, hlt, hle⟩ := ih b
      have hhb : (Poker.NewHand combo).value ≤ b.value := by
        have := (compareHands_pos_iff (Poker.NewHand combo) b).not.1 hcmp
        omega
      cases l1 with
      | nil =>
        rw [List.nil_append] at hdec
        obtain ⟨hrb, hl2⟩ := List.cons.inj hdec
        refine ⟨[], Poker.NewHand combo :: l2, r, ?_, ?_, by simp, ?_⟩
        · rw [getBestHandAux_cons, if_neg hcmp]
          exact hres
        · rw [List.map_cons, List.nil_append, ← hrb, ← hl2]
        · intro x hx
          rcases List.mem_cons.1 hx with rfl | hx2
          · rw [← hrb]
            exact hhb
          · exact hle x hx2
      | cons h1 t1 =>
        rw [List.cons_append] at hdec
        obtain ⟨hh1, htail⟩ := List.cons.inj hdec
        have hbr : b.value < r.value := by
          have := hlt h1 (List.mem_cons_self _ _)
          rw [← hh1] at this
          exact this
        refine ⟨b :: Poker.NewHand combo :: t1, l2, r, ?_, ?_, ?_, hle⟩
        · rw [getBestHandAux_cons, if_neg hcmp]
          exact hres
        · rw [List.map_cons, List.cons_append, List.cons_append, ← htail]
        · intro x hx
          rcases List.mem_cons.1 hx with rfl | hx2
          · exact hbr
          · rcases List.mem_cons.1 hx2 with rfl | hx3
            · omega
            · exact hlt x (List.mem_cons_of_mem _ hx3)

/-- Claim C8: for any 7 cards, GetBestHand returns the hand of the first
5-card combination attaining the maximum scalar value in the enumeration
order of generateCombinations: its value dominates each of the 21 subsets
(every 5-card sublist), strictly dominating every earlier combination. -/
theorem getBestHand_max_first (cards : List Poker.Card) (h7 : cards.length = 7) :
    ∃ hBest l1 l2,
      Poker.GetBestHand cards = some hBest ∧
      (Poker.generateCombinations cards 5).length = 21 ∧
      (Poker.generateCombinations cards 5).map Poker.NewHand = l1 ++ hBest :: l2 ∧
      (∀ x ∈ l1, x.value < hBest.value) ∧
      (∀ x ∈ l2, x.value ≤ hBest.value) ∧
      ∀ s, s.Sublist cards → s.length = 5 →
        (Poker.NewHand s).value ≤ hBest.value := by
  have hlen : (Poker.generateCombinations cards 5).length = 21 := by
    show (Poker.combinationsFrom cards 5).length = 21
    rw [combinationsFrom_length, h7]
    decide
  rcases hc : Poker.generateCombinations cards 5 with _ | ⟨c0, rest⟩
  · rw [hc] at hlen
    exact absurd hlen (by simp)
  · rw [hc] at hlen
    have hstep : Poker.GetBestHand cards =
        Poker.GetBestHandAux rest (some (Poker.NewHand c0)) := by
      rw [Poker.GetBestHand, hc]
      rfl
    obtain ⟨l1, l2, r, hres, hdec, hlt, hle⟩ :=
      getBestHandAux_spec rest (Poker.NewHand c0)
    refine ⟨r, l1, l2, by rw [hstep]; exact hres, hlen, ?_, hlt, hle, ?_⟩
    · rw [List.map_cons, ← hdec]
    · intro s hsub hlen5
      have hmem : s ∈ Poker.generateCombinations cards 5 :=
        (combinationsFrom_sublist cards 5 s).2 ⟨hsub, hlen5⟩
      rw [hc] at hmem
      have hmem2 : Poker.NewHand s ∈ l1 ++ r :: l2 := by
        rw [← hdec, ← List.map_cons]
        exact List.mem_map_of_mem Poker.NewHand hmem
      rcases List.mem_append.1 hmem2 with h | h
      · exact le_of_lt (hlt _ h)
      · rcases List.mem_cons.1 h with heq | h2
        · rw [heq]
        · exact hle _ h2

/-- Witness for claim C8 at a concrete 7-card input. -/
theorem getBestHand_max_first_witness :
    ∃ hBest l1 l2,
      Poker.GetBestHand
          [⟨14, 3⟩, ⟨14, 0⟩, ⟨14, 1⟩, ⟨13, 2⟩, ⟨13, 3⟩, ⟨12, 0⟩, ⟨11, 1⟩] =
        some hBest ∧
      (Poker.generateCombinations
          [⟨14, 3⟩, ⟨14, 0⟩, ⟨14, 1⟩, ⟨13, 2⟩, ⟨13, 3⟩, ⟨12, 0⟩, ⟨11, 1⟩]
          5).length = 21 ∧
      (Poker.generateCombinations
          [⟨14, 3⟩, ⟨14, 0⟩, ⟨14, 1⟩, ⟨13, 2⟩, ⟨13, 3⟩, ⟨12, 0⟩, ⟨11, 1⟩]
          5).map Poker.NewHand = l1 ++ hBest :: l2 ∧
      (∀ x ∈ l1, x.value < hBest.value) ∧
      (∀ x ∈ l2, x.value ≤ hBest.value) ∧
      ∀ s, s.Sublist
          [⟨14, 3⟩, ⟨14, 0⟩, ⟨14, 1⟩, ⟨13, 2⟩, ⟨13, 3⟩, ⟨12, 0⟩, ⟨11, 1⟩] →
        s.length = 5 → (Poker.NewHand s).value ≤ hBest.value :=
  getBestHand_max_first
    [⟨14, 3⟩, ⟨14, 0⟩, ⟨14, 1⟩, ⟨13, 2⟩, ⟨13, 3⟩, ⟨12, 0⟩, ⟨11, 1⟩] (by decide)

theorem mod_shift_ne (n start j : Nat) (hstart : start < n) (hj1 : 1 ≤ j)
    (hjn : j < n) : (start + j) % n ≠ start := by
  intro he
  have hdm := Nat.div_add_mod (start + j) n
  rw [he] at hdm
  have hq : n * ((start + j) / n) = j := by omega
  rcases Nat.eq_zero_or_pos ((start + j) / n) with h0 | h0
  · rw [h0] at hq
    omega
  · have := Nat.mul_le_mul_left n h0
    omega

theorem moveNextAux_first (g : Game) (start : Nat) :
    ∀ (k pos fuel : Nat), pos < g.playerOrder.length → k + 1 ≤ fuel →
      (∀ j, j < k → canActAt g ((pos + j) % g.playerOrder.length) = false) →
      canActAt g ((pos + k) % g.playerOrder.length) = true →
      (∀ j, 1 ≤ j → j ≤ k → (pos + j) % g.playerOrder.length ≠ start) →
      moveNextAux g start fuel pos = (pos + k) % g.playerOrder.length := by
  intro k
  induction k with
  | zero =>
    intro pos fuel hpos hfuel _ hact _
    match fuel, hfuel with
    | f + 1, _ =>
      have hpp : (pos + 0) % g.playerOrder.length = pos := by
        rw [Nat.add_zero, Nat.mod_eq_of_lt hpos]
      rw [hpp] at hact ⊢
      rw [moveNextAux, if_pos hact]
  | succ k ih =>
    intro pos fuel hpos hfuel hfalse hact hne
    match fuel, hfuel with
    | f + 1, hfuel =>
      have hn : 0 < g.playerOrder.length := Nat.lt_of_le_of_lt (Nat.zero_le _) hpos
      have hpp : (pos + 0) % g.playerOrder.length = pos := by
        rw [Nat.add_zero, Nat.mod_eq_of_lt hpos]
      have h0 : canActAt g pos = false := by
        have := hfalse 0 (Nat.succ_pos k)
        rwa [hpp] at this
      have hshift : ∀ j, ((pos + 1) % g.playerOrder.length + j) %
          g.playerOrder.length = (pos + (1 + j)) % g.playerOrder.length := by
        intro j
        rw [Nat.mod_add_mod, Nat.add_assoc]
      have hne1 : (pos + 1) % g.playerOrder.length ≠ start :=
        hne 1 (Nat.le_refl 1) (by omega)
      rw [moveNextAux, if_neg (by simp [h0]), if_neg hne1]
      have hres := ih ((pos + 1) % g.playerOrder.length) f
        (Nat.mod_lt _ hn) (by omega)
        (fun j hj => by
          rw [hshift j]
          exact hfalse (1 + j) (by omega))
        (by
          rw [hshift k, show pos + (1 + k) = pos + (k + 1) by omega]
          exact hact)
        (fun j hj1 hjk => by
          rw [hshift j]
          exact hne (1 + j) (by omega) (by omega))
      rw [hres, hshift k]
      congr 1
      omega

theorem setFirstAfterDealer_first (gI : Game) (k : Nat)
    (hk : k < gI.playerOrder.length)
    (hfalse : ∀ j, j < k →
      canActAt gI ((gI.dealerPos + 1 + j) % gI.playerOrder.length) = false)
    (hact : canActAt gI
      ((gI.dealerPos + 1 + k) % gI.playerOrder.length) = true) :
    (Game.setFirstAfterDealer gI).currentPlayer =
      (gI.dealerPos + 1 + k) % gI.playerOrder.length := by
  have hn : 0 < gI.playerOrder.length := Nat.lt_of_le_of_lt (Nat.zero_le _) hk
  have hstart : (gI.dealerPos + 1) % gI.playerOrder.length <
      gI.playerOrder.length := Nat.mod_lt _ hn
  have hshift : ∀ j, ((gI.dealerPos + 1) % gI.playerOrder.length + j) %
      gI.playerOrder.length = (gI.dealerPos + 1 + j) % gI.playerOrder.length := by
    intro j
    rw [Nat.mod_add_mod]
  have hcan : ∀ pos, canActAt { gI with currentPlayer :=
      (gI.dealerPos + 1) % gI.playerOrder.length } pos = canActAt gI pos := by
    intro pos
    rfl
  have hres := moveNextAux_first
    { gI with currentPlayer := (gI.dealerPos + 1) % gI.playerOrder.length }
    ((gI.dealerPos + 1) % gI.playerOrder.length) k
    ((gI.dealerPos + 1) % gI.playerOrder.length)
    (gI.playerOrder.length + 2) hstart (by omega)
    (fun j hj => by rw [hcan, hshift j]; exact hfalse j hj)
    (by rw [hcan, hshift k]; exact hact)
    (fun j hj1 hjk =>
      mod_shift_ne gI.playerOrder.length
        ((gI.dealerPos + 1) % gI.playerOrder.length) j hstart hj1
        (show j < gI.playerOrder.length by omega))
  show moveNextAux _ _ _ _ = _
  rw [hres, hshift k]

theorem sfad_deck (x : Game) (ph : GamePhase) :
    (Game.setFirstAfterDealer { x with phase := ph }).deck = x.deck := rfl

theorem sfad_comm (x : Game) (ph : GamePhase) :
    (Game.setFirstAfterDealer { x with phase := ph }).communityCards =
      x.communityCards := rfl

theorem sfad_players (x : Game) (ph : GamePhase) :
    (Game.setFirstAfterDealer { x with phase := ph }).players = x.players := rfl

theorem dealFlop_players (x : Game) :
    (Game.dealFlop x).players = x.players := rfl

theorem dealTurn_players (x : Game) :
    (Game.dealTurn x).players = x.players := rfl

theorem dealRiver_players (x : Game) :
    (Game.dealRiver x).players = x.players := rfl

theorem dealFlop_fields (x : Game) (a b c d : Poker.Card)
    (rest : List Poker.Card) (hdk : x.deck = a :: b :: c :: d :: rest) :
    (Game.dealFlop x).deck = rest ∧
    (Game.dealFlop x).communityCards = x.communityCards ++ [b, c, d] := by
  rw [Game.dealFlop, hdk]
  exact ⟨rfl, rfl⟩

theorem dealTurn_fields (x : Game) (a b : Poker.Card)
    (rest : List Poker.Card) (hdk : x.deck = a :: b :: rest) :
    (Game.dealTurn x).deck = rest ∧
    (Game.dealTurn x).communityCards = x.communityCards ++ [b] := by
  rw [Game.dealTurn, hdk]
  exact ⟨rfl, rfl⟩

theorem dealRiver_fields (x : Game) (a b : Poker.Card)
    (rest : List Poker.Card) (hdk : x.deck = a :: b :: rest) :
    (Game.dealRiver x).deck = rest ∧
    (Game.dealRiver x).communityCards = x.communityCards ++ [b] := by
  rw [Game.dealRiver, hdk]
  exact ⟨rfl, rfl⟩

/-- Claim C5 amended: advancing a completed betting round from PreFlop, Flop
or Turn resets every player's current-street bet to 0 (the cumulative bet and
the rest of the player's record persist), burns one card, deals the street's
community cards (3 for the Flop, 1 each for Turn and River), resets the
street-high bet to 0, leaves the minimum raise increment unchanged (the code
never resets it to the big blind), keeps the pot, and seats the player to act
at the first position after the dealer whose player can act. -/
theorem advancePhase_amended (g : Game) (hdeck : 4 ≤ g.deck.length) :
    (g.phase = .preFlop → ∃ g', g.advancePhase = some g' ∧
      g'.phase = .flop ∧
      g'.lastRaise = 0 ∧
      g'.minRaise = g.minRaise ∧
      g'.playerOrder = g.playerOrder ∧
      g'.pot = g.pot ∧
      (∀ pid p, alookup g.players pid = some p →
          alookup g'.players pid = some { p with currentBet := 0 }) ∧
      g'.deck = g.deck.drop 4 ∧
      g'.communityCards = g.communityCards ++ (g.deck.drop 1).take 3 ∧
      ∀ k, k < g.playerOrder.length →
        (∀ j, j < k → canActAt g'
          ((g.dealerPos + 1 + j) % g.playerOrder.length) = false) →
        canActAt g' ((g.dealerPos + 1 + k) % g.playerOrder.length) = true →
        g'.currentPlayer = (g.dealerPos + 1 + k) % g.playerOrder.length) ∧
    (g.phase = .flop → ∃ g', g.advancePhase = some g' ∧
      g'.phase = .turn ∧
      g'.lastRaise = 0 ∧
      g'.minRaise = g.minRaise ∧
      g'.playerOrder = g.playerOrder ∧
      g'.pot = g.pot ∧
      (∀ pid p, alookup g.players pid = some p →
          alookup g'.players pid = some { p with currentBet := 0 }) ∧
      g'.deck = g.deck.drop 2 ∧
      g'.communityCards = g.communityCards ++ (g.deck.drop 1).take 1 ∧
      ∀ k, k < g.playerOrder.length →
        (∀ j, j < k → canActAt g'
          ((g.dealerPos + 1 + j) % g.playerOrder.length) = false) →
        canActAt g' ((g.dealerPos + 1 + k) % g.playerOrder.length) = true →
        g'.currentPlayer = (g.dealerPos + 1 + k) % g.playerOrder.length) ∧
    (g.phase = .turn → ∃ g', g.advancePhase = some g' ∧
      g'.phase = .river ∧
      g'.lastRaise = 0 ∧
      g'.minRaise = g.minRaise ∧
      g'.playerOrder = g.playerOrder ∧
      g'.pot = g.pot ∧
      (∀ pid p, alookup g.players pid = some p →
          alookup g'.players pid = some { p with currentBet := 0 }) ∧
      g'.deck = g.deck.drop 2 ∧
      g'.communityCards = g.communityCards ++ (g.deck.drop 1).take 1 ∧
      ∀ k, k < g.playerOrder.length →
        (∀ j, j < k → canActAt g'
          ((g.dealerPos + 1 + j) % g.playerOrder.length) = false) →
        canActAt g' ((g.dealerPos + 1 + k) % g.playerOrder.length) = true →
        g'.currentPlayer = (g.dealerPos + 1 + k) % g.playerOrder.length) := by
  obtain ⟨a, b, c, d, rest, hdk⟩ :
      ∃ a b c d rest, g.deck = a :: b :: c :: d :: rest := by
    rcases hd : g.deck with _ | ⟨a, _ | ⟨b, _ | ⟨c, _ | ⟨d, rest⟩⟩⟩⟩ <;>
      (try (rw [hd] at hdeck; simp at hdeck)) <;>
      exact ⟨a, b, c, d, rest, rfl⟩
  refine ⟨?_, ?_, ?_⟩
  · intro hph
    have hf := dealFlop_fields
      { g with
        players := g.players.map (fun kv => (kv.1, { kv.2 with currentBet := 0 })),
        lastRaise := 0 }
      a b c d rest hdk
    refine ⟨Game.setFirstAfterDealer
        { Game.dealFlop { g with
            players := g.players.map (fun kv => (kv.1, { kv.2 with currentBet := 0 })),
            lastRaise := 0 } with phase := .flop },
      by simp only [Game.advancePhase, hph], rfl, rfl, rfl, rfl, rfl,
      ?_, ?_, ?_, ?_⟩
    · intro pid p hp
      have h1 := alookup_map_values g.players
        (fun q => { q with currentBet := 0 }) pid
      rw [hp] at h1
      rw [sfad_players, dealFlop_players]
      exact h1
    · rw [sfad_deck, hf.1, hdk]
      rfl
    · rw [sfad_comm, hf.2, hdk]
      rfl
    · intro k hk hfalse hact
      exact setFirstAfterDealer_first _ k hk hfalse hact
  · intro hph
    have hf := dealTurn_fields
      { g with
        players := g.players.map (fun kv => (kv.1, { kv.2 with currentBet := 0 })),
        lastRaise := 0 }
      a b (c :: d :: rest) hdk
    refine ⟨Game.setFirstAfterDealer
        { Game.dealTurn { g with
            players := g.players.map (fun kv => (kv.1, { kv.2 with currentBet := 0 })),
            lastRaise := 0 } with phase := .turn },
      by simp only [Game.advancePhase, hph], rfl, rfl, rfl, rfl, rfl,
      ?_, ?_, ?_, ?_⟩
    · intro pid p hp
      have h1 := alookup_map_values g.players
        (fun q => { q with currentBet := 0 }) pid
      rw [hp] at h1
      rw [sfad_players, dealTurn_players]
      exact h1
    · rw [sfad_deck, hf.1, hdk]
      rfl
    · rw [sfad_comm, hf.2, hdk]
      rfl
    · intro k hk hfalse hact
      exact setFirstAfterDealer_first _ k hk hfalse hact
  · intro hph
    have hf := dealRiver_fields
      { g with
        players := g.players.map (fun kv => (kv.1, { kv.2 with currentBet := 0 })),
        lastRaise := 0 }
      a b (c :: d :: rest) hdk
    refine ⟨Game.setFirstAfterDealer
        { Game.dealRiver { g with
            players := g.players.map (fun kv => (kv.1, { kv.2 with currentBet := 0 })),
            lastRaise := 0 } with phase := .river },
      by simp only [Game.advancePhase, hph], rfl, rfl, rfl, rfl, rfl,
      ?_, ?_, ?_, ?_⟩
    · intro pid p hp
      have h1 := alookup_map_values g.players
        (fun q => { q with currentBet := 0 }) pid
      rw [hp] at h1
      rw [sfad_players, dealRiver_players]
      exact h1
    · rw [sfad_deck, hf.1, hdk]
      rfl
    · rw [sfad_comm, hf.2, hdk]
      rfl
    · intro k hk hfalse hact
      exact setFirstAfterDealer_first _ k hk hfalse hact

/-- Witness for the amended claim C5 at the heads-up pre-flop state. -/
theorem advancePhase_amended_witness :
    ∃ g', hu2.advancePhase = some g' ∧
      g'.phase = .flop ∧
      g'.lastRaise = 0 ∧
      g'.minRaise = hu2.minRaise ∧
      g'.playerOrder = hu2.playerOrder ∧
      g'.pot = hu2.pot ∧
      (∀ pid p, alookup hu2.players pid = some p →
          alookup g'.players pid = some { p with currentBet := 0 }) ∧
      g'.deck = hu2.deck.drop 4 ∧
      g'.communityCards = hu2.communityCards ++ (hu2.deck.drop 1).take 3 ∧
      ∀ k, k < hu2.playerOrder.length →
        (∀ j, j < k → canActAt g'
          ((hu2.dealerPos + 1 + j) % hu2.playerOrder.length) = false) →
        canActAt g' ((hu2.dealerPos + 1 + k) % hu2.playerOrder.length) = true →
        g'.currentPlayer = (hu2.dealerPos + 1 + k) % hu2.playerOrder.length :=
  (advancePhase_amended hu2 (by decide)).1 (by decide)

theorem chipSum_cons (kv : String × Player) (ps : List (String × Player)) :
    chipSum (kv :: ps) = kv.2.chipCount + chipSum ps := by
  simp [chipSum]

theorem filter_ne_of_not_mem (ps : List (String × Player)) (k : String)
    (h : k ∉ ps.map Prod.fst) :
    ps.filter (fun kv => !(kv.1 == k)) = ps := by
  induction ps with
  | nil => rfl
  | cons kv rest ih =>
    simp only [List.map_cons, List.mem_cons, not_or] at h
    have hk : (kv.1 == k) = false := by
      simp only [beq_eq_false_iff_ne]
      exact fun hc => h.1 hc.symm
    rw [List.filter_cons]
    simp only [hk, Bool.not_false, if_true, ih h.2]

theorem chipSum_aupdate (ps : List (String × Player)) (k : String)
    (f : Player → Player) (p : Player) (hnd : (ps.map Prod.fst).Nodup)
    (hl : alookup ps k = some p) :
    chipSum (aupdate ps k f) = chipSum ps - p.chipCount + (f p).chipCount := by
  induction ps with
  | nil => exact absurd hl (by simp [alookup])
  | cons kv rest ih =>
    rw [aupdate_cons]
    rw [alookup_cons] at hl
    simp only [List.map_cons, List.nodup_cons] at hnd
    by_cases hk : kv.1 == k
    · rw [if_pos hk] at hl ⊢
      rw [Option.some.injEq] at hl
      have hk1 : kv.1 = k := by simpa using hk
      have hnotin : k ∉ rest.map Prod.fst := by
        rw [← hk1]
        exact hnd.1
      rw [chipSum_cons, chipSum_cons, aupdate_of_not_mem _ _ _ hnotin, hl]
      ring
    · rw [if_neg hk] at hl ⊢
      rw [chipSum_cons, chipSum_cons, ih hnd.2 hl]
      ring

theorem chipSum_filter_out (ps : List (String × Player)) (k : String) (p : Player)
    (hnd : (ps.map Prod.fst).Nodup) (hl : alookup ps k = some p) :
    chipSum (ps.filter (fun kv => !(kv.1 == k))) = chipSum ps - p.chipCount := by
  induction ps with
  | nil => exact absurd hl (by simp [alookup])
  | cons kv rest ih =>
    rw [alookup_cons] at hl
    simp only [List.map_cons, List.nodup_cons] at hnd
    rw [List.filter_cons]
    by_cases hk : kv.1 == k
    · rw [if_pos hk, Option.some.injEq] at hl
      have hk1 : kv.1 = k := by simpa using hk
      have hnotin : k ∉ rest.map Prod.fst := by
        rw [← hk1]
        exact hnd.1
      have hpred : (!(kv.1 == k)) = false := by simp [hk]
      rw [hpred, if_neg (by simp), filter_ne_of_not_mem rest k hnotin,
        chipSum_cons, hl]
      ring
    · rw [if_neg hk] at hl
      have hpred : (!(kv.1 == k)) = true := by simp [hk]
      rw [hpred, if_pos rfl, chipSum_cons, chipSum_cons, ih hnd.2 hl]
      ring

theorem mapv_keys (ps : List (String × Player)) (f : Player → Player) :
    ((ps.map (fun kv => (kv.1, f kv.2))).map Prod.fst) = ps.map Prod.fst := by
  induction ps with
  | nil => rfl
  | cons kv rest ih => simp [ih]

theorem chipSum_mapv (ps : List (String × Player)) (f : Player → Player)
    (hf : ∀ q, (f q).chipCount = q.chipCount) :
    chipSum (ps.map (fun kv => (kv.1, f kv.2))) = chipSum ps := by
  induction ps with
  | nil => rfl
  | cons kv rest ih =>
    rw [List.map_cons, chipSum_cons, chipSum_cons, ih]
    simp [hf]

theorem keyid_aupdate (ps : List (String × Player)) (k : String)
    (f : Player → Player) (hid : ∀ kv ∈ ps, kv.1 = kv.2.id)
    (hf : ∀ q, (f q).id = q.id) :
    ∀ kv ∈ aupdate ps k f, kv.1 = kv.2.id := by
  induction ps with
  | nil => simp [aupdate]
  | cons kv rest ih =>
    rw [aupdate_cons]
    intro kv2 hkv2
    rcases List.mem_cons.1 hkv2 with rfl | h2
    · by_cases hk : kv.1 == k
      · rw [if_pos hk]
        have := hid kv (List.mem_cons_self _ _)
        simp [hf, this]
      · rw [if_neg hk]
        exact hid kv (List.mem_cons_self _ _)
    · exact ih (fun kv3 h3 => hid kv3 (List.mem_cons_of_mem _ h3)) kv2 h2

theorem nonneg_aupdate (ps : List (String × Player)) (k : String)
    (f : Player → Player) (hnn : ∀ kv ∈ ps, (0 : Int) ≤ kv.2.chipCount)
    (hf : ∀ q, (0 : Int) ≤ q.chipCount → (0 : Int) ≤ (f q).chipCount) :
    ∀ kv ∈ aupdate ps k f, (0 : Int) ≤ kv.2.chipCount := by
  induction ps with
  | nil => simp [aupdate]
  | cons kv rest ih =>
    rw [aupdate_cons]
    intro kv2 hkv2
    rcases List.mem_cons.1 hkv2 with rfl | h2
    · by_cases hk : kv.1 == k
      · rw [if_pos hk]
        exact hf _ (hnn kv (List.mem_cons_self _ _))
      · rw [if_neg hk]
        exact hnn kv (List.mem_cons_self _ _)
    · exact ih (fun kv3 h3 => hnn kv3 (List.mem_cons_of_mem _ h3)) kv2 h2

theorem keyid_mapv (ps : List (String × Player)) (f : Player → Player)
    (hid : ∀ kv ∈ ps, kv.1 = kv.2.id) (hf : ∀ q, (f q).id = q.id) :
    ∀ kv ∈ ps.map (fun kv => (kv.1, f kv.2)), kv.1 = kv.2.id := by
  intro kv2 hkv2
  rw [List.mem_map] at hkv2
  obtain ⟨kv, hkv, rfl⟩ := hkv2
  simp [hf, hid kv hkv]

theorem nonneg_mapv (ps : List (String × Player)) (f : Player → Player)
    (hnn : ∀ kv ∈ ps, (0 : Int) ≤ kv.2.chipCount)
    (hf : ∀ q, (0 : Int) ≤ q.chipCount → (0 : Int) ≤ (f q).chipCount) :
    ∀ kv ∈ ps.map (fun kv => (kv.1, f kv.2)), (0 : Int) ≤ kv.2.chipCount := by
  intro kv2 hkv2
  rw [List.mem_map] at hkv2
  obtain ⟨kv, hkv, rfl⟩ := hkv2
  exact hf _ (hnn kv hkv)

theorem bet_ok_facts (p : Player) (amount : Int) (p2 : Player)
    (h : p.bet amount = .ok p2) :
    p2.chipCount = p.chipCount - amount ∧ p2.id = p.id ∧
    p2.connected = p.connected ∧ (0 : Int) ≤ p2.chipCount ∧
    amount ≤ p.chipCount := by
  unfold Player.bet at h
  by_cases hc : amount > p.chipCount
  · rw [if_pos hc] at h
    exact absurd h (by simp)
  · rw [if_neg hc] at h
    dsimp only at h
    split_ifs at h with hz
    · rw [Except.ok.injEq] at h
      subst h
      exact ⟨rfl, rfl, rfl, by dsimp only; omega, by omega⟩
    · rw [Except.ok.injEq] at h
      subst h
      exact ⟨rfl, rfl, rfl, by dsimp only; omega, by omega⟩

theorem foldl_step_pred {α β : Type} (step : β → α → β) (P : β → Prop) :
    ∀ (l : List α) (acc : β), P acc →
      (∀ b a, a ∈ l → P b → P (step b a)) → P (l.foldl step acc) := by
  intro l
  induction l with
  | nil => intro acc hacc _; exact hacc
  | cons a rest ih =>
    intro acc hacc hstep
    rw [List.foldl_cons]
    exact ih (step acc a) (hstep acc a (List.mem_cons_self _ _) hacc)
      (fun b x hx hb => hstep b x (List.mem_cons_of_mem _ hx) hb)

theorem winnersFold_mem (g : Game) (l : List Player) :
    ∀ w ∈ (winnersFold g l).2, w ∈ l := by
  rw [winnersFold]
  refine foldl_step_pred _
    (fun (acc : Option Poker.Hand × List Player) => ∀ w ∈ acc.2, w ∈ l)
    l (none, []) ?_ ?_
  · simp
  · intro b a ha hb
    dsimp only
    split
    · exact hb
    · split
      · exact hb
      · split
        · intro w hw
          rw [List.mem_singleton] at hw
          subst hw
          exact ha
        · split_ifs
          · intro w hw
            rw [List.mem_singleton] at hw
            subst hw
            exact ha
          · intro w hw
            rcases List.mem_append.1 hw with h2 | h2
            · exact hb w h2
            · rw [List.mem_singleton] at h2
              subst h2
              exact ha
          · exact hb

theorem sum_indicator (r : Int) (n : Nat) (hr : 0 ≤ r) :
    ((List.range n).map
      (fun (i : Nat) => if (i : Int) < r then (1 : Int) else 0)).sum = min r n := by
  induction n with
  | zero =>
    simp only [List.range_zero, List.map_nil, List.sum_nil]
    omega
  | succ k ih =>
    rw [List.range_succ, List.map_append, List.sum_append, ih]
    simp only [List.map_cons, List.map_nil, List.sum_cons, List.sum_nil]
    split_ifs with h <;> omega

theorem sum_const_add (l : List Nat) (c : Int) (h : Nat → Int) :
    (l.map (fun i => c + h i)).sum = l.length * c + (l.map h).sum := by
  induction l with
  | nil => simp
  | cons a rest ih =>
    simp only [List.map_cons, List.sum_cons, ih, List.length_cons]
    push_cast
    ring

theorem keyid_aupdate2 (ps : List (String × Player)) (k : String)
    (f : Player → Player) (p : Player) (hnd : (ps.map Prod.fst).Nodup)
    (hid : ∀ kv ∈ ps, kv.1 = kv.2.id) (hl : alookup ps k = some p)
    (hfp : (f p).id = p.id) :
    ∀ kv ∈ aupdate ps k f, kv.1 = kv.2.id := by
  induction ps with
  | nil => simp [aupdate]
  | cons kv rest ih =>
    rw [alookup_cons] at hl
    rw [aupdate_cons]
    simp only [List.map_cons, List.nodup_cons] at hnd
    intro kv2 hkv2
    by_cases hk : kv.1 == k
    · rw [if_pos hk, Option.some.injEq] at hl
      have hk1 : kv.1 = k := by simpa using hk
      have hnotin : k ∉ rest.map Prod.fst := by
        rw [← hk1]
        exact hnd.1
      rw [if_pos hk, aupdate_of_not_mem _ _ _ hnotin] at hkv2
      rcases List.mem_cons.1 hkv2 with heq | h2
      · rw [heq]
        dsimp only
        rw [hl, hfp, ← hl]
        exact hid kv (List.mem_cons_self _ _)
      · exact hid kv2 (List.mem_cons_of_mem _ h2)
    · rw [if_neg hk] at hl
      rw [if_neg hk] at hkv2
      rcases List.mem_cons.1 hkv2 with heq | h2
      · rw [heq]
        exact hid kv (List.mem_cons_self _ _)
      · exact ih hnd.2 (fun kv3 h3 => hid kv3 (List.mem_cons_of_mem _ h3)) hl kv2 h2

theorem nonneg_aupdate2 (ps : List (String × Player)) (k : String)
    (f : Player → Player) (p : Player) (hnd : (ps.map Prod.fst).Nodup)
    (hnn : ∀ kv ∈ ps, (0 : Int) ≤ kv.2.chipCount) (hl : alookup ps k = some p)
    (hfp : (0 : Int) ≤ (f p).chipCount) :
    ∀ kv ∈ aupdate ps k f, (0 : Int) ≤ kv.2.chipCount := by
  induction ps with
  | nil => simp [aupdate]
  | cons kv rest ih =>
    rw [alookup_cons] at hl
    rw [aupdate_cons]
    simp only [List.map_cons, List.nodup_cons] at hnd
    intro kv2 hkv2
    by_cases hk : kv.1 == k
    · rw [if_pos hk, Option.some.injEq] at hl
      have hk1 : kv.1 = k := by simpa using hk
      have hnotin : k ∉ rest.map Prod.fst := by
        rw [← hk1]
        exact hnd.1
      rw [if_pos hk, aupdate_of_not_mem _ _ _ hnotin] at hkv2
      rcases List.mem_cons.1 hkv2 with heq | h2
      · rw [heq]
        dsimp only
        rw [hl]
        exact hfp
      · exact hnn kv2 (List.mem_cons_of_mem _ h2)
    · rw [if_neg hk] at hl
      rw [if_neg hk] at hkv2
      rcases List.mem_cons.1 hkv2 with heq | h2
      · rw [heq]
        exact hnn kv (List.mem_cons_self _ _)
      · exact ih hnd.2 (fun kv3 h3 => hnn kv3 (List.mem_cons_of_mem _ h3)) hl kv2 h2

theorem chipSum_aupdate_pres (ps : List (String × Player)) (k : String)
    (f : Player → Player) (hf : ∀ q, (f q).chipCount = q.chipCount) :
    chipSum (aupdate ps k f) = chipSum ps := by
  induction ps with
  | nil => rfl
  | cons kv rest ih =>
    rw [aupdate_cons, chipSum_cons, chipSum_cons, ih]
    by_cases hk : kv.1 == k
    · rw [if_pos hk]
      dsimp only
      rw [hf]
    · rw [if_neg hk]

theorem keyid_aupdate_pres (ps : List (String × Player)) (k : String)
    (f : Player → Player) (hid : ∀ kv ∈ ps, kv.1 = kv.2.id)
    (hf : ∀ q, (f q).id = q.id) :
    ∀ kv ∈ aupdate ps k f, kv.1 = kv.2.id :=
  keyid_aupdate ps k f hid hf

theorem getActivePlayers_lookup (g : Game)
    (hid : ∀ kv ∈ g.players, kv.1 = kv.2.id) :
    ∀ w ∈ g.getActivePlayers, alookup g.players w.id = some w := by
  intro w hw
  rw [Game.getActivePlayers, List.mem_filterMap] at hw
  obtain ⟨pid, _, hfn⟩ := hw
  rcases hl : alookup g.players pid with _ | p
  · rw [hl] at hfn
    exact absurd hfn (by simp)
  · rw [hl] at hfn
    dsimp only at hfn
    by_cases hf : p.hasFolded
    · rw [if_neg (by simp [hf])] at hfn
      exact absurd hfn (by simp)
    · rw [if_pos (by simp [hf])] at hfn
      rw [Option.some.injEq] at hfn
      subst hfn
      have hmem := alookup_mem _ _ _ hl
      have := hid _ hmem
      dsimp only at this
      rw [← this]
      exact hl

theorem bet_error_gt (p : Player) (amount : Int) (e : String)
    (h : p.bet amount = .error e) : amount > p.chipCount := by
  unfold Player.bet at h
  by_cases hc : amount > p.chipCount
  · exact hc
  · rw [if_neg hc] at h
    dsimp only at h
    split_ifs at h <;> exact absurd h (by simp)

theorem distFold_facts (potShare remainder : Int) (hps : 0 ≤ potShare)
    (hr : 0 ≤ remainder) :
    ∀ (pairs : List (Nat × Player)) (G : Game),
      (G.players.map Prod.fst).Nodup →
      (∀ iw ∈ pairs, iw.2.id ∈ G.players.map Prod.fst) →
      (∀ kv ∈ G.players, kv.1 = kv.2.id) →
      (∀ kv ∈ G.players, (0 : Int) ≤ kv.2.chipCount) →
      chipSum (pairs.foldl (fun g iw => g.setPlayer iw.2.id (fun p =>
          { p with chipCount := p.chipCount + potShare +
            (if (iw.1 : Int) < remainder then 1 else 0) })) G).players
        = chipSum G.players + (pairs.map (fun iw => potShare +
            (if (iw.1 : Int) < remainder then (1 : Int) else 0))).sum ∧
      (pairs.foldl (fun g iw => g.setPlayer iw.2.id (fun p =>
          { p with chipCount := p.chipCount + potShare +
            (if (iw.1 : Int) < remainder then 1 else 0) })) G).players.map Prod.fst
        = G.players.map Prod.fst ∧
      (∀ kv ∈ (pairs.foldl (fun g iw => g.setPlayer iw.2.id (fun p =>
          { p with chipCount := p.chipCount + potShare +
            (if (iw.1 : Int) < remainder then 1 else 0) })) G).players,
        kv.1 = kv.2.id) ∧
      (∀ kv ∈ (pairs.foldl (fun g iw => g.setPlayer iw.2.id (fun p =>
          { p with chipCount := p.chipCount + potShare +
            (if (iw.1 : Int) < remainder then 1 else 0) })) G).players,
        (0 : Int) ≤ kv.2.chipCount) ∧
      (pairs.foldl (fun g iw => g.setPlayer iw.2.id (fun p =>
          { p with chipCount := p.chipCount + potShare +
            (if (iw.1 : Int) < remainder then 1 else 0) })) G).pot = G.pot ∧
      (pairs.foldl (fun g iw => g.setPlayer iw.2.id (fun p =>
          { p with chipCount := p.chipCount + potShare +
            (if (iw.1 : Int) < remainder then 1 else 0) })) G).playerOrder
        = G.playerOrder ∧
      (pairs.foldl (fun g iw => g.setPlayer iw.2.id (fun p =>
          { p with chipCount := p.chipCount + potShare +
            (if (iw.1 : Int) < remainder then 1 else 0) })) G).minPlayers
        = G.minPlayers := by
  intro pairs
  induction pairs with
  | nil =>
    intro G hnd _ hid hnn
    exact ⟨by simp, rfl, hid, hnn, rfl, rfl, rfl⟩
  | cons iw rest ih =>
    intro G hnd hpres hid hnn
    rw [List.foldl_cons]
    have hkeymem : iw.2.id ∈ G.players.map Prod.fst :=
      hpres iw (List.mem_cons_self _ _)
    have hsome : (alookup G.players iw.2.id).isSome :=
      (alookup_isSome_iff _ _).2 hkeymem
    rcases hl : alookup G.players iw.2.id with _ | p
    · rw [hl] at hsome
      exact absurd hsome (by simp)
    · have hG1nd : ((G.setPlayer iw.2.id (fun p =>
          { p with chipCount := p.chipCount + potShare +
            (if (iw.1 : Int) < remainder then 1 else 0) })).players.map
          Prod.fst).Nodup := by
        rw [Game.setPlayer]
        dsimp only
        rw [aupdate_keys]
        exact hnd
      have hG1keys : (G.setPlayer iw.2.id (fun p =>
          { p with chipCount := p.chipCount + potShare +
            (if (iw.1 : Int) < remainder then 1 else 0) })).players.map Prod.fst
          = G.players.map Prod.fst := by
        rw [Game.setPlayer]
        dsimp only
        rw [aupdate_keys]
      have hG1id : ∀ kv ∈ (G.setPlayer iw.2.id (fun p =>
          { p with chipCount := p.chipCount + potShare +
            (if (iw.1 : Int) < remainder then 1 else 0) })).players,
          kv.1 = kv.2.id := by
        rw [Game.setPlayer]
        dsimp only
        exact keyid_aupdate _ _ _ hid (fun q => rfl)
      have hG1nn : ∀ kv ∈ (G.setPlayer iw.2.id (fun p =>
          { p with chipCount := p.chipCount + potShare +
            (if (iw.1 : Int) < remainder then 1 else 0) })).players,
          (0 : Int) ≤ kv.2.chipCount := by
        rw [Game.setPlayer]
        dsimp only
        refine nonneg_aupdate _ _ _ hnn (fun q hq => ?_)
        dsimp only
        split_ifs <;> omega
      obtain ⟨hS, hK, hI, hN, hP, hO, hM⟩ := ih _ hG1nd
        (fun jw hjw => by rw [hG1keys]; exact hpres jw (List.mem_cons_of_mem _ hjw))
        hG1id hG1nn
      refine ⟨?_, by rw [hK, hG1keys], hI, hN, by rw [hP]; rfl,
        by rw [hO]; rfl, by rw [hM]; rfl⟩
      rw [hS]
      have hstep : chipSum (G.setPlayer iw.2.id (fun p =>
          { p with chipCount := p.chipCount + potShare +
            (if (iw.1 : Int) < remainder then 1 else 0) })).players
          = chipSum G.players + potShare +
            (if (iw.1 : Int) < remainder then 1 else 0) := by
        rw [Game.setPlayer]
        dsimp only
        rw [chipSum_aupdate _ _ _ p hnd hl]
        dsimp only
        ring
      rw [hstep, List.map_cons, List.sum_cons]
      ring

theorem distributeSidePot_facts (g : Game) (winners : List Player) (sp : SidePot)
    (hnd : (g.players.map Prod.fst).Nodup)
    (hid : ∀ kv ∈ g.players, kv.1 = kv.2.id)
    (hnn : ∀ kv ∈ g.players, (0 : Int) ≤ kv.2.chipCount)
    (hpres : ∀ w ∈ winners, w.id ∈ g.players.map Prod.fst)
    (hamt : (0 : Int) ≤ sp.amount) (hw : winners ≠ []) :
    chipSum (distributeSidePot g winners sp).players
      = chipSum g.players + sp.amount ∧
    (distributeSidePot g winners sp).players.map Prod.fst
      = g.players.map Prod.fst ∧
    (∀ kv ∈ (distributeSidePot g winners sp).players, kv.1 = kv.2.id) ∧
    (∀ kv ∈ (distributeSidePot g winners sp).players,
      (0 : Int) ≤ kv.2.chipCount) ∧
    (distributeSidePot g winners sp).pot = g.pot ∧
    (distributeSidePot g winners sp).playerOrder = g.playerOrder ∧
    (distributeSidePot g winners sp).minPlayers = g.minPlayers := by
  have hn : 0 < winners.length := List.length_pos.2 hw
  have hnz : ((winners.length : Int)) ≠ 0 := by
    simp only [ne_eq, Nat.cast_eq_zero]
    omega
  have hps : (0 : Int) ≤ Int.tdiv sp.amount (winners.length : Int) :=
    Int.tdiv_nonneg hamt (by positivity)
  have hrm : Int.tmod sp.amount (winners.length : Int)
      = sp.amount % (winners.length : Int) :=
    Int.tmod_eq_emod hamt (by positivity)
  have hr0 : (0 : Int) ≤ Int.tmod sp.amount (winners.length : Int) := by
    rw [hrm]
    exact Int.emod_nonneg _ hnz
  have hrlt : Int.tmod sp.amount (winners.length : Int) < (winners.length : Int) := by
    rw [hrm]
    exact Int.emod_lt_of_pos _ (by exact_mod_cast hn)
  have hpres2 : ∀ iw ∈ winners.enum, iw.2.id ∈ g.players.map Prod.fst := by
    intro iw hiw
    refine hpres iw.2 ?_
    have : iw.2 ∈ winners.enum.map Prod.snd := List.mem_map_of_mem _ hiw
    rwa [List.enum_map_snd] at this
  obtain ⟨hS, hK, hI, hN, hP, hO, hM⟩ :=
    distFold_facts (Int.tdiv sp.amount (winners.length : Int))
      (Int.tmod sp.amount (winners.length : Int)) hps hr0 winners.enum g
      hnd hpres2 hid hnn
  rw [distributeSidePot]
  refine ⟨?_, hK, hI, hN, hP, hO, hM⟩
  rw [hS]
  have hmap : winners.enum.map (fun iw =>
      Int.tdiv sp.amount (winners.length : Int) +
        (if (iw.1 : Int) < Int.tmod sp.amount (winners.length : Int)
          then (1 : Int) else 0))
      = (List.range winners.length).map (fun (i : Nat) =>
        Int.tdiv sp.amount (winners.length : Int) +
          (if (i : Int) < Int.tmod sp.amount (winners.length : Int)
            then (1 : Int) else 0)) := by
    rw [← List.enum_map_fst winners, List.map_map]
    rfl
  rw [hmap,
    sum_const_add (List.range winners.length)
      (Int.tdiv sp.amount (winners.length : Int))
      (fun (i : Nat) =>
        if (i : Int) < Int.tmod sp.amount (winners.length : Int)
          then (1 : Int) else 0),
    sum_indicator (Int.tmod sp.amount (winners.length : Int)) winners.length hr0,
    min_eq_left (le_of_lt hrlt), List.length_range]
  have hdm := Int.tdiv_add_tmod sp.amount (winners.length : Int)
  linarith

theorem spFold_facts (winners : List Player) (hw : winners ≠ []) :
    ∀ (sps : List SidePot) (G : Game),
      (G.players.map Prod.fst).Nodup →
      (∀ kv ∈ G.players, kv.1 = kv.2.id) →
      (∀ kv ∈ G.players, (0 : Int) ≤ kv.2.chipCount) →
      (∀ w ∈ winners, w.id ∈ G.players.map Prod.fst) →
      (∀ sp ∈ sps, (0 : Int) ≤ sp.amount) →
      chipSum (sps.foldl (fun g sp => distributeSidePot g winners sp) G).players
        = chipSum G.players + (sps.map SidePot.amount).sum ∧
      (sps.foldl (fun g sp => distributeSidePot g winners sp) G).players.map
          Prod.fst = G.players.map Prod.fst ∧
      (∀ kv ∈ (sps.foldl (fun g sp => distributeSidePot g winners sp) G).players,
        kv.1 = kv.2.id) ∧
      (∀ kv ∈ (sps.foldl (fun g sp => distributeSidePot g winners sp) G).players,
        (0 : Int) ≤ kv.2.chipCount) ∧
      (sps.foldl (fun g sp => distributeSidePot g winners sp) G).pot = G.pot ∧
      (sps.foldl (fun g sp => distributeSidePot g winners sp) G).playerOrder
        = G.playerOrder ∧
      (sps.foldl (fun g sp => distributeSidePot g winners sp) G).minPlayers
        = G.minPlayers := by
  intro sps
  induction sps with
  | nil =>
    intro G hnd hid hnn _ _
    exact ⟨by simp, rfl, hid, hnn, rfl, rfl, rfl⟩
  | cons sp rest ih =>
    intro G hnd hid hnn hpres hamts
    rw [List.foldl_cons]
    obtain ⟨hS1, hK1, hI1, hN1, hP1, hO1, hM1⟩ :=
      distributeSidePot_facts G winners sp hnd hid hnn hpres
        (hamts sp (List.mem_cons_self _ _)) hw
    obtain ⟨hS, hK, hI, hN, hP, hO, hM⟩ := ih (distributeSidePot G winners sp)
      (by rw [hK1]; exact hnd) hI1 hN1 (by rw [hK1]; exact hpres)
      (fun s hs => hamts s (List.mem_cons_of_mem _ hs))
    refine ⟨?_, by rw [hK, hK1], hI, hN, by rw [hP, hP1],
      by rw [hO, hO1], by rw [hM, hM1]⟩
    rw [hS, hS1, List.map_cons, List.sum_cons]
    ring

theorem determineWinners_mem (g : Game) (l : List Player) :
    ∀ w ∈ g.determineWinners l, w ∈ l := by
  rw [Game.determineWinners]
  by_cases h1 : l.length = 1
  · rw [if_pos h1]
    exact fun w hw => hw
  · rw [if_neg h1]
    exact winnersFold_mem g l

theorem distributePots_facts (g g2 : Game)
    (hnd : (g.players.map Prod.fst).Nodup)
    (hid : ∀ kv ∈ g.players, kv.1 = kv.2.id)
    (hnn : ∀ kv ∈ g.players, (0 : Int) ≤ kv.2.chipCount)
    (hpot : (0 : Int) ≤ g.pot)
    (hamts : ∀ sp ∈ g.sidePots, (0 : Int) ≤ sp.amount)
    (hsum : (g.sidePots.map SidePot.amount).sum = g.pot)
    (hok : g.distributePots = some g2) :
    chipSum g2.players + g2.pot = chipSum g.players + g.pot ∧
    (g2.players.map Prod.fst).Nodup ∧
    (∀ kv ∈ g2.players, kv.1 = kv.2.id) ∧
    (∀ kv ∈ g2.players, (0 : Int) ≤ kv.2.chipCount) ∧
    (0 : Int) ≤ g2.pot ∧
    g2.playerOrder = g.playerOrder ∧
    g2.minPlayers = g.minPlayers := by
  rw [Game.distributePots] at hok
  rcases hap : g.getActivePlayers with _ | ⟨w, _ | ⟨w2, rest2⟩⟩ <;>
    rw [hap] at hok <;> dsimp only at hok
  · rw [Option.some.injEq] at hok
    subst hok
    exact ⟨rfl, hnd, hid, hnn, hpot, rfl, rfl⟩
  · rw [Option.some.injEq] at hok
    subst hok
    have hwin : w ∈ g.getActivePlayers := by
      rw [hap]
      exact List.mem_cons_self _ _
    have hl := getActivePlayers_lookup g hid w hwin
    have hwem := alookup_mem _ _ _ hl
    have hwnn : (0 : Int) ≤ w.chipCount := hnn _ hwem
    refine ⟨?_, ?_, ?_, ?_, le_refl 0, rfl, rfl⟩
    · show chipSum (aupdate g.players w.id
        (fun p => { p with chipCount := p.chipCount + g.pot })) + 0
        = chipSum g.players + g.pot
      rw [chipSum_aupdate _ _ _ w hnd hl]
      dsimp only
      ring
    · show ((aupdate g.players w.id
        (fun p => { p with chipCount := p.chipCount + g.pot })).map Prod.fst).Nodup
      rw [aupdate_keys]
      exact hnd
    · show ∀ kv ∈ aupdate g.players w.id
        (fun p => { p with chipCount := p.chipCount + g.pot }), kv.1 = kv.2.id
      exact keyid_aupdate _ _ _ hid (fun q => rfl)
    · show ∀ kv ∈ aupdate g.players w.id
        (fun p => { p with chipCount := p.chipCount + g.pot }),
        (0 : Int) ≤ kv.2.chipCount
      refine nonneg_aupdate _ _ _ hnn (fun q hq => ?_)
      dsimp only
      omega
  · split_ifs at hok with hc
    rw [Option.some.injEq] at hok
    subst hok
    by_cases hwl : g.determineWinners (w :: w2 :: rest2) = []
    · have hsp : g.sidePots = [] := by
        rw [hwl] at hc
        have hlen : g.sidePots.length = 0 := by simpa using hc
        exact List.length_eq_zero.1 hlen
      have hpot0 : g.pot = 0 := by
        rw [hsp] at hsum
        simpa using hsum.symm
      rw [hsp, List.foldl_nil]
      refine ⟨?_, hnd, hid, hnn, le_refl 0, rfl, rfl⟩
      show chipSum g.players + (0 : Int) = chipSum g.players + g.pot
      rw [hpot0]
    · have hpres : ∀ x ∈ g.determineWinners (w :: w2 :: rest2),
          x.id ∈ g.players.map Prod.fst := by
        intro x hx
        have hxa : x ∈ g.getActivePlayers := by
          rw [hap]
          exact determineWinners_mem g _ x hx
        have hlx := getActivePlayers_lookup g hid x hxa
        exact (alookup_isSome_iff _ _).1 (by rw [hlx]; rfl)
      obtain ⟨hS, hK, hI, hN, hP, hO, hM⟩ :=
        spFold_facts (g.determineWinners (w :: w2 :: rest2)) hwl g.sidePots g
          hnd hid hnn hpres hamts
      refine ⟨?_, ?_, ?_, ?_, le_refl 0, ?_, ?_⟩
      · show chipSum (g.sidePots.foldl (fun gg sp =>
          distributeSidePot gg (g.determineWinners (w :: w2 :: rest2)) sp)
            g).players + (0 : Int) = chipSum g.players + g.pot
        rw [hS, hsum]
        ring
      · show ((g.sidePots.foldl (fun gg sp =>
          distributeSidePot gg (g.determineWinners (w :: w2 :: rest2)) sp)
            g).players.map Prod.fst).Nodup
        rw [hK]
        exact hnd
      · show ∀ kv ∈ (g.sidePots.foldl (fun gg sp =>
          distributeSidePot gg (g.determineWinners (w :: w2 :: rest2)) sp)
            g).players, kv.1 = kv.2.id
        exact hI
      · show ∀ kv ∈ (g.sidePots.foldl (fun gg sp =>
          distributeSidePot gg (g.determineWinners (w :: w2 :: rest2)) sp)
            g).players, (0 : Int) ≤ kv.2.chipCount
        exact hN
      · show (g.sidePots.foldl (fun gg sp =>
          distributeSidePot gg (g.determineWinners (w :: w2 :: rest2)) sp)
            g).playerOrder = g.playerOrder
        exact hO
      · show (g.sidePots.foldl (fun gg sp =>
          distributeSidePot gg (g.determineWinners (w :: w2 :: rest2)) sp)
            g).minPlayers = g.minPlayers
        exact hM

theorem removeEliminatedStep_facts (g : Game) (i : Nat)
    (hnd : (g.players.map Prod.fst).Nodup)
    (hid : ∀ kv ∈ g.players, kv.1 = kv.2.id)
    (hnn : ∀ kv ∈ g.players, (0 : Int) ≤ kv.2.chipCount) :
    chipSum (removeEliminatedStep g i).players = chipSum g.players ∧
    ((removeEliminatedStep g i).players.map Prod.fst).Nodup ∧
    (∀ kv ∈ (removeEliminatedStep g i).players, kv.1 = kv.2.id) ∧
    (∀ kv ∈ (removeEliminatedStep g i).players, (0 : Int) ≤ kv.2.chipCount) ∧
    (removeEliminatedStep g i).pot = g.pot ∧
    (removeEliminatedStep g i).minPlayers = g.minPlayers := by
  rw [removeEliminatedStep]
  split
  · exact ⟨rfl, hnd, hid, hnn, rfl, rfl⟩
  · rename_i pid hpo
    split
    · exact ⟨rfl, hnd, hid, hnn, rfl, rfl⟩
    · rename_i p hl
      by_cases hcond : (decide (p.chipCount ≤ 0) && !p.connected) = true
      · rw [if_pos hcond]
        have hmem := alookup_mem _ _ _ hl
        have hple : p.chipCount ≤ 0 := by
          simp only [Bool.and_eq_true, decide_eq_true_eq] at hcond
          exact hcond.1
        have hp0 : p.chipCount = 0 := le_antisymm hple (hnn _ hmem)
        refine ⟨?_, ?_, ?_, ?_, rfl, rfl⟩
        · show chipSum (g.players.filter (fun kv => !(kv.1 == pid)))
            = chipSum g.players
          rw [chipSum_filter_out _ _ p hnd hl, hp0]
          ring
        · show ((g.players.filter (fun kv => !(kv.1 == pid))).map Prod.fst).Nodup
          exact hnd.sublist (List.Sublist.map Prod.fst (List.filter_sublist _))
        · exact fun kv hkv => hid kv (List.mem_of_mem_filter hkv)
        · exact fun kv hkv => hnn kv (List.mem_of_mem_filter hkv)
      · rw [if_neg hcond]
        exact ⟨rfl, hnd, hid, hnn, rfl, rfl⟩

theorem removeEliminated_facts (g : Game)
    (hnd : (g.players.map Prod.fst).Nodup)
    (hid : ∀ kv ∈ g.players, kv.1 = kv.2.id)
    (hnn : ∀ kv ∈ g.players, (0 : Int) ≤ kv.2.chipCount) :
    chipSum g.removeEliminatedPlayers.players = chipSum g.players ∧
    (g.removeEliminatedPlayers.players.map Prod.fst).Nodup ∧
    (∀ kv ∈ g.removeEliminatedPlayers.players, kv.1 = kv.2.id) ∧
    (∀ kv ∈ g.removeEliminatedPlayers.players, (0 : Int) ≤ kv.2.chipCount) ∧
    g.removeEliminatedPlayers.pot = g.pot ∧
    g.removeEliminatedPlayers.minPlayers = g.minPlayers := by
  rw [Game.removeEliminatedPlayers]
  refine foldl_step_pred removeEliminatedStep
    (fun G => chipSum G.players = chipSum g.players ∧
      (G.players.map Prod.fst).Nodup ∧
      (∀ kv ∈ G.players, kv.1 = kv.2.id) ∧
      (∀ kv ∈ G.players, (0 : Int) ≤ kv.2.chipCount) ∧
      G.pot = g.pot ∧ G.minPlayers = g.minPlayers)
    _ g ⟨rfl, hnd, hid, hnn, rfl, rfl⟩ ?_
  intro b i _ hb
  obtain ⟨hb1, hb2, hb3, hb4, hb5, hb6⟩ := hb
  obtain ⟨h1, h2, h3, h4, h5, h6⟩ := removeEliminatedStep_facts b i hb2 hb3 hb4
  exact ⟨h1.trans hb1, h2, h3, h4, h5.trans hb5, h6.trans hb6⟩

theorem endHand_facts (g g2 : Game)
    (hnd : (g.players.map Prod.fst).Nodup)
    (hid : ∀ kv ∈ g.players, kv.1 = kv.2.id)
    (hnn : ∀ kv ∈ g.players, (0 : Int) ≤ kv.2.chipCount)
    (hpot : (0 : Int) ≤ g.pot)
    (hok : g.endHand = some g2) :
    chipSum g2.players + g2.pot = chipSum g.players + g.pot := by
  rw [Game.endHand] at hok
  have hSp : (Game.calculateSidePots { g with phase := .showdown }).players
      = g.players := rfl
  have hSpot : (Game.calculateSidePots { g with phase := .showdown }).pot
      = g.pot := rfl
  have hSsp : (Game.calculateSidePots { g with phase := .showdown }).sidePots
      = [{ amount := g.pot,
           eligiblePlayers := g.playerOrder.filter (fun pid =>
             match alookup g.players pid with
             | some p => !p.hasFolded
             | none => false) }] := rfl
  rcases hdp : (Game.calculateSidePots { g with phase := .showdown }).distributePots
    with _ | gd
  · rw [hdp] at hok
    exact absurd hok (by simp)
  · rw [hdp] at hok
    dsimp only at hok
    obtain ⟨hS, hK, hI, hN, hP, _, _⟩ :=
      distributePots_facts (Game.calculateSidePots { g with phase := .showdown }) gd
        (by rw [hSp]; exact hnd) (by rw [hSp]; exact hid) (by rw [hSp]; exact hnn)
        (by rw [hSpot]; exact hpot)
        (by
          rw [hSsp]
          intro sp hsp
          rw [List.mem_singleton] at hsp
          subst hsp
          exact hpot)
        (by rw [hSsp, hSpot]; simp)
        hdp
    rw [hSp, hSpot] at hS
    obtain ⟨hr1, _, _, _, hr5, _⟩ := removeEliminated_facts gd hK hI hN
    split_ifs at hok <;> rw [Option.some.injEq] at hok <;> subst hok
    · show chipSum gd.removeEliminatedPlayers.players
        + gd.removeEliminatedPlayers.pot = chipSum g.players + g.pot
      rw [hr1, hr5]
      exact hS
    · rw [hr1, hr5]
      exact hS

theorem advancePhase_cons (g g2 : Game)
    (hnd : (g.players.map Prod.fst).Nodup)
    (hid : ∀ kv ∈ g.players, kv.1 = kv.2.id)
    (hnn : ∀ kv ∈ g.players, (0 : Int) ≤ kv.2.chipCount)
    (hpot : (0 : Int) ≤ g.pot)
    (hok : g.advancePhase = some g2) :
    chipSum g2.players + g2.pot = chipSum g.players + g.pot := by
  cases hph : g.phase <;> simp only [Game.advancePhase, hph] at hok
  case river =>
    obtain ⟨X, hXok, hXp, hXpot⟩ : ∃ X : Game,
        Game.endHand X = some g2 ∧
        X.players = g.players.map (fun kv => (kv.1, clearBet kv.2)) ∧
        X.pot = g.pot := ⟨_, hok, rfl, rfl⟩
    have hcons := endHand_facts X g2
      (by rw [hXp, mapv_keys]; exact hnd)
      (by rw [hXp]; exact keyid_mapv g.players clearBet hid (fun q => rfl))
      (by rw [hXp]; exact nonneg_mapv g.players clearBet hnn (fun q hq => hq))
      (by rw [hXpot]; exact hpot)
      hXok
    rw [hXp, hXpot, chipSum_mapv g.players clearBet (fun q => rfl)] at hcons
    exact hcons
  all_goals rw [Option.some.injEq] at hok
  all_goals subst hok
  all_goals show chipSum (g.players.map (fun kv => (kv.1, clearBet kv.2))) + g.pot
    = chipSum g.players + g.pot
  all_goals rw [chipSum_mapv g.players clearBet (fun q => rfl)]

theorem advanceGame_cons (g g2 : Game)
    (hnd : (g.players.map Prod.fst).Nodup)
    (hid : ∀ kv ∈ g.players, kv.1 = kv.2.id)
    (hnn : ∀ kv ∈ g.players, (0 : Int) ≤ kv.2.chipCount)
    (hpot : (0 : Int) ≤ g.pot)
    (hok : g.advanceGame = some g2) :
    chipSum g2.players + g2.pot = chipSum g.players + g.pot := by
  rw [Game.advanceGame] at hok
  split_ifs at hok
  · exact endHand_facts g g2 hnd hid hnn hpot hok
  · exact advancePhase_cons g g2 hnd hid hnn hpot hok
  · rw [Option.some.injEq] at hok
    subst hok
    show chipSum g.players + g.pot = chipSum g.players + g.pot
    rfl

theorem moveDealer_pp (x : Game) :
    x.moveDealerButton.players = x.players ∧ x.moveDealerButton.pot = x.pot := by
  rw [Game.moveDealerButton]
  split_ifs <;> exact ⟨rfl, rfl⟩

theorem dealHolePass_cons (x : Game) :
    chipSum (dealHolePass x).players = chipSum x.players ∧
    (dealHolePass x).pot = x.pot ∧
    (dealHolePass x).players.map Prod.fst = x.players.map Prod.fst := by
  rw [dealHolePass]
  refine foldl_step_pred _
    (fun G => chipSum G.players = chipSum x.players ∧ G.pot = x.pot ∧
      G.players.map Prod.fst = x.players.map Prod.fst)
    x.playerOrder x ⟨rfl, rfl, rfl⟩ ?_
  intro b pid _ hb
  obtain ⟨hb1, hb2, hb3⟩ := hb
  split
  · rename_i p hl
    split_ifs with hact
    · refine ⟨?_, ?_, ?_⟩
      · show chipSum (aupdate b.players pid (fun q =>
          { q with holeCards := q.holeCards ++ [(dealOne b.deck).1] }))
          = chipSum x.players
        rw [chipSum_aupdate_pres b.players pid (fun q =>
          { q with holeCards := q.holeCards ++ [(dealOne b.deck).1] })
          (fun q => rfl)]
        exact hb1
      · exact hb2
      · show (aupdate b.players pid (fun q =>
          { q with holeCards := q.holeCards ++ [(dealOne b.deck).1] })).map Prod.fst
          = x.players.map Prod.fst
        rw [aupdate_keys]
        exact hb3
    · exact ⟨hb1, hb2, hb3⟩
  · exact ⟨hb1, hb2, hb3⟩

theorem postOneBlind_cons (x : Game) (pos : Nat) (blind : Int)
    (hnd : (x.players.map Prod.fst).Nodup) :
    chipSum (postOneBlind x pos blind).players + (postOneBlind x pos blind).pot
      = chipSum x.players + x.pot ∧
    (postOneBlind x pos blind).players.map Prod.fst = x.players.map Prod.fst := by
  rw [postOneBlind]
  split
  · exact ⟨rfl, rfl⟩
  · rename_i pid hpo
    split
    · exact ⟨rfl, rfl⟩
    · rename_i player hl
      rcases hbet : player.bet (min blind player.chipCount) with e | p'
      case error =>
        exfalso
        have h1 := bet_error_gt _ _ _ hbet
        have h2 := min_le_right blind player.chipCount
        omega
      case ok =>
        simp only [hbet]
        obtain ⟨hbc, hbi, hbcn, hbnn, hble⟩ := bet_ok_facts _ _ _ hbet
        refine ⟨?_, ?_⟩
        · show chipSum (aupdate x.players pid (fun q => p'))
            + (x.pot + min blind player.chipCount)
            = chipSum x.players + x.pot
          rw [chipSum_aupdate _ _ _ player hnd hl]
          rw [show ((fun q => p') player).chipCount = p'.chipCount from rfl, hbc]
          ring
        · show (aupdate x.players pid (fun q => p')).map Prod.fst
            = x.players.map Prod.fst
          exact aupdate_keys _ _ _

set_option maxHeartbeats 2000000 in
theorem startNewHand_cons (g : Game) (deck : List Poker.Card)
    (hnd : (g.players.map Prod.fst).Nodup) :
    chipSum (g.startNewHand deck).players + (g.startNewHand deck).pot
      = chipSum g.players := by
  obtain ⟨F, h1, h2, h3, h4⟩ : ∃ F : Game,
      (g.startNewHand deck).players = F.dealHoleCards.postBlinds.players ∧
      (g.startNewHand deck).pot = F.dealHoleCards.postBlinds.pot ∧
      F.players = g.players.map (fun kv => (kv.1, kv.2.resetForNewHand)) ∧
      F.pot = 0 := by
    refine ⟨{ Game.moveDealerButton { g with
        handNumber := g.handNumber + 1,
        phase := .preFlop,
        pot := 0,
        sidePots := [],
        communityCards := [],
        actions := [],
        lastRaise := g.bigBlind,
        minRaise := g.bigBlind,
        players := g.players.map (fun kv => (kv.1, kv.2.resetForNewHand)) } with
      deck := deck }, rfl, rfl, ?_, ?_⟩
    · exact ((moveDealer_pp _).1).trans rfl
    · exact ((moveDealer_pp _).2).trans rfl
  rw [h1, h2, Game.postBlinds]
  obtain ⟨hd1, hd2, hd3⟩ : chipSum F.dealHoleCards.players = chipSum F.players ∧
      F.dealHoleCards.pot = F.pot ∧
      F.dealHoleCards.players.map Prod.fst = F.players.map Prod.fst := by
    rw [Game.dealHoleCards]
    obtain ⟨ha1, ha2, ha3⟩ := dealHolePass_cons F
    obtain ⟨hc1, hc2, hc3⟩ := dealHolePass_cons (dealHolePass F)
    exact ⟨hc1.trans ha1, hc2.trans ha2, hc3.trans ha3⟩
  have hknd : (F.dealHoleCards.players.map Prod.fst).Nodup := by
    rw [hd3, h3, mapv_keys]
    exact hnd
  obtain ⟨hp1, hp2⟩ := postOneBlind_cons F.dealHoleCards
    F.dealHoleCards.smallBlindPos F.dealHoleCards.smallBlind hknd
  obtain ⟨hq1, hq2⟩ := postOneBlind_cons
    (postOneBlind F.dealHoleCards F.dealHoleCards.smallBlindPos
      F.dealHoleCards.smallBlind)
    F.dealHoleCards.bigBlindPos F.dealHoleCards.bigBlind
    (by rw [hp2]; exact hknd)
  rw [hq1, hp1, hd1, hd2, h4, h3,
    chipSum_mapv g.players Player.resetForNewHand (fun q => rfl)]
  ring

theorem applyAction_facts (g : Game) (pid : String) (player : Player)
    (action : PlayerAction) (amount : Int) (gr : Game × PlayerAction)
    (hnd : (g.players.map Prod.fst).Nodup)
    (hid : ∀ kv ∈ g.players, kv.1 = kv.2.id)
    (hnn : ∀ kv ∈ g.players, (0 : Int) ≤ kv.2.chipCount)
    (hpot : (0 : Int) ≤ g.pot)
    (hl : alookup g.players pid = some player)
    (hcb : player.currentBet ≤ g.lastRaise)
    (hmr : (0 : Int) ≤ g.minRaise)
    (hok : applyAction g pid player action amount = .ok gr) :
    chipSum gr.1.players + gr.1.pot = chipSum g.players + g.pot ∧
    (gr.1.players.map Prod.fst).Nodup ∧
    (∀ kv ∈ gr.1.players, kv.1 = kv.2.id) ∧
    (∀ kv ∈ gr.1.players, (0 : Int) ≤ kv.2.chipCount) ∧
    (0 : Int) ≤ gr.1.pot := by
  have hpnn : (0 : Int) ≤ player.chipCount := hnn _ (alookup_mem _ _ _ hl)
  cases action
  case fold =>
    simp only [applyAction] at hok
    rw [Except.ok.injEq] at hok
    subst hok
    refine ⟨?_, ?_, ?_, ?_, ?_⟩
    · show chipSum (aupdate g.players pid Player.foldHand) + g.pot
        = chipSum g.players + g.pot
      rw [chipSum_aupdate_pres g.players pid Player.foldHand (fun q => rfl)]
    · show ((aupdate g.players pid Player.foldHand).map Prod.fst).Nodup
      rw [aupdate_keys]
      exact hnd
    · show ∀ kv ∈ aupdate g.players pid Player.foldHand, kv.1 = kv.2.id
      exact keyid_aupdate _ _ _ hid (fun q => rfl)
    · show ∀ kv ∈ aupdate g.players pid Player.foldHand,
        (0 : Int) ≤ kv.2.chipCount
      exact nonneg_aupdate _ _ _ hnn (fun q hq => hq)
    · show (0 : Int) ≤ g.pot
      exact hpot
  case check =>
    simp only [applyAction] at hok
    split_ifs at hok
    rw [Except.ok.injEq] at hok
    subst hok
    exact ⟨rfl, hnd, hid, hnn, hpot⟩
  case call =>
    simp only [applyAction] at hok
    split at hok
    · exact absurd hok (by simp)
    · rename_i p' hbet
      rw [Except.ok.injEq] at hok
      subst hok
      have hc0 : (0 : Int) ≤ (if g.lastRaise - player.currentBet > player.chipCount
          then player.chipCount else g.lastRaise - player.currentBet) := by
        split_ifs <;> omega
      obtain ⟨hbc, hbi, _, hbnn2, _⟩ := bet_ok_facts _ _ _ hbet
      refine ⟨?_, ?_, ?_, ?_, ?_⟩
      · show chipSum (aupdate g.players pid (fun q => p'))
          + (g.pot + (if g.lastRaise - player.currentBet > player.chipCount
            then player.chipCount else g.lastRaise - player.currentBet))
          = chipSum g.players + g.pot
        rw [chipSum_aupdate _ _ _ player hnd hl,
          show ((fun q => p') player).chipCount = p'.chipCount from rfl, hbc]
        ring
      · show ((aupdate g.players pid (fun q => p')).map Prod.fst).Nodup
        rw [aupdate_keys]
        exact hnd
      · show ∀ kv ∈ aupdate g.players pid (fun q => p'), kv.1 = kv.2.id
        exact keyid_aupdate2 _ _ _ player hnd hid hl hbi
      · show ∀ kv ∈ aupdate g.players pid (fun q => p'),
          (0 : Int) ≤ kv.2.chipCount
        exact nonneg_aupdate2 _ _ _ player hnd hnn hl hbnn2
      · show (0 : Int) ≤ g.pot + (if g.lastRaise - player.currentBet > player.chipCount
          then player.chipCount else g.lastRaise - player.currentBet)
        exact add_nonneg hpot hc0
  case raise =>
    simp only [applyAction] at hok
    split_ifs at hok with h1 h2
    split at hok
    · exact absurd hok (by simp)
    · rename_i p' hbet
      rw [Except.ok.injEq] at hok
      subst hok
      have hc0 : (0 : Int) ≤ g.lastRaise + amount - player.currentBet := by omega
      obtain ⟨hbc, hbi, _, hbnn2, _⟩ := bet_ok_facts _ _ _ hbet
      refine ⟨?_, ?_, ?_, ?_, ?_⟩
      · show chipSum (aupdate g.players pid (fun q => p'))
          + (g.pot + (g.lastRaise + amount - player.currentBet))
          = chipSum g.players + g.pot
        rw [chipSum_aupdate _ _ _ player hnd hl,
          show ((fun q => p') player).chipCount = p'.chipCount from rfl, hbc]
        ring
      · show ((aupdate g.players pid (fun q => p')).map Prod.fst).Nodup
        rw [aupdate_keys]
        exact hnd
      · show ∀ kv ∈ aupdate g.players pid (fun q => p'), kv.1 = kv.2.id
        exact keyid_aupdate2 _ _ _ player hnd hid hl hbi
      · show ∀ kv ∈ aupdate g.players pid (fun q => p'),
          (0 : Int) ≤ kv.2.chipCount
        exact nonneg_aupdate2 _ _ _ player hnd hnn hl hbnn2
      · show (0 : Int) ≤ g.pot + (g.lastRaise + amount - player.currentBet)
        exact add_nonneg hpot hc0
  case allIn =>
    simp only [applyAction] at hok
    split at hok
    · exact absurd hok (by simp)
    · rename_i p' hbet
      rw [Except.ok.injEq] at hok
      subst hok
      obtain ⟨hbc, hbi, _, hbnn2, _⟩ := bet_ok_facts _ _ _ hbet
      refine ⟨?_, ?_, ?_, ?_, ?_⟩
      · split_ifs <;>
          (show chipSum (aupdate g.players pid (fun q => p'))
            + (g.pot + player.chipCount) = chipSum g.players + g.pot
           rw [chipSum_aupdate _ _ _ player hnd hl,
             show ((fun q => p') player).chipCount = p'.chipCount from rfl, hbc]
           ring)
      · split_ifs <;>
          (show ((aupdate g.players pid (fun q => p')).map Prod.fst).Nodup
           rw [aupdate_keys]
           exact hnd)
      · split_ifs <;>
          (show ∀ kv ∈ aupdate g.players pid (fun q => p'), kv.1 = kv.2.id
           exact keyid_aupdate2 _ _ _ player hnd hid hl hbi)
      · split_ifs <;>
          (show ∀ kv ∈ aupdate g.players pid (fun q => p'),
            (0 : Int) ≤ kv.2.chipCount
           exact nonneg_aupdate2 _ _ _ player hnd hnn hl hbnn2)
      · split_ifs <;>
          (show (0 : Int) ≤ g.pot + player.chipCount
           exact add_nonneg hpot hpnn)

theorem processAction_cons (g g3 : Game) (pid : String) (action : PlayerAction)
    (amount : Int)
    (hwf : GWf g) (hcn : ChipsNonneg g) (hbs : BettingSane g)
    (hok : g.processAction pid action amount = .ok g3) :
    chipSum g3.players + g3.pot = chipSum g.players + g.pot := by
  obtain ⟨hnd, hid⟩ := hwf
  obtain ⟨hnn, hpot⟩ := hcn
  obtain ⟨hmr, hcb⟩ := hbs
  rw [Game.processAction] at hok
  split_ifs at hok with h1 h2
  all_goals try contradiction
  split at hok
  · contradiction
  · rename_i player hl
    split_ifs at hok with h3
    all_goals try contradiction
    rcases ha : applyAction g pid player action amount with e | ga
    · rw [ha] at hok
      dsimp only at hok
      contradiction
    · rw [ha] at hok
      dsimp only at hok
      split at hok
      · contradiction
      · rename_i gfin hadv
        rw [Except.ok.injEq] at hok
        subst hok
        have hpid : pid = g.getCurrentPlayerID := not_ne_iff.1 h2
        have hcb2 : player.currentBet ≤ g.lastRaise :=
          hcb player (by rw [← hpid]; exact hl)
        obtain ⟨haS, haK, haI, haN, haP⟩ :=
          applyAction_facts g pid player action amount ga
            hnd hid hnn hpot hl hcb2 hmr ha
        obtain ⟨X, hXadv, hXp, hXpot⟩ : ∃ X : Game,
            X.advanceGame = some gfin ∧
            X.players = aupdate ga.1.players pid (fun p => { p with
              lastAction := some { playerID := pid, action := ga.2, amount := amount } }) ∧
            X.pot = ga.1.pot := ⟨_, hadv, rfl, rfl⟩
        have hcons := advanceGame_cons X gfin
          (by rw [hXp, aupdate_keys]; exact haK)
          (by rw [hXp]; exact keyid_aupdate _ _ _ haI (fun q => rfl))
          (by rw [hXp]; exact nonneg_aupdate _ _ _ haN (fun q hq => hq))
          (by rw [hXpot]; exact haP)
          hXadv
        rw [hXp, hXpot,
          chipSum_aupdate_pres ga.1.players pid (fun p => { p with
            lastAction := some { playerID := pid, action := ga.2, amount := amount } })
            (fun q => rfl)] at hcons
        exact hcons.trans haS

theorem bettingSane_of_check (g : Game)
    (hmr : (0 : Int) ≤ g.minRaise)
    (h : (alookup g.players g.getCurrentPlayerID).all
      (fun p => decide (p.currentBet ≤ g.lastRaise)) = true) : BettingSane g := by
  refine ⟨hmr, fun p hp => ?_⟩
  rw [hp] at h
  simpa using h

/-- Claim C3: Chip conservation across a hand. Starting a hand moves chips only
from stacks to the pot (post-hand stacks plus the pot equal pre-hand stacks),
and every successfully processed action, through settlement and pot
distribution with odd-chip remainders, preserves stacks plus pot. -/
theorem chip_conservation :
    (∀ (g : Game) (deck : List Poker.Card),
      (g.players.map Prod.fst).Nodup →
      chipSum (g.startNewHand deck).players + (g.startNewHand deck).pot
        = chipSum g.players) ∧
    (∀ (g g' : Game) (pid : String) (action : PlayerAction) (amount : Int),
      GWf g → ChipsNonneg g → BettingSane g →
      g.processAction pid action amount = .ok g' →
      chipSum g'.players + g'.pot = chipSum g.players + g.pot) :=
  ⟨fun g deck hnd => startNewHand_cons g deck hnd,
   fun g g' pid action amount hwf hcn hbs hok =>
     processAction_cons g g' pid action amount hwf hcn hbs hok⟩

/-- Witness for C3 at the embedded heads-up table: starting a hand from the
joined table conserves chips, as does the small blind's call. -/
theorem chip_conservation_witness :
    chipSum (hu2.startNewHand Poker.NewDeckCards).players
      + (hu2.startNewHand Poker.NewDeckCards).pot = chipSum hu2.players ∧
    chipSum hu3.players + hu3.pot = chipSum hu2.players + hu2.pot :=
  ⟨chip_conservation.1 hu2 Poker.NewDeckCards (by decide),
   chip_conservation.2 hu2 hu3 "p2" .call 0
     ⟨by decide, by decide⟩
     ⟨by decide, by decide⟩
     (bettingSane_of_check hu2 (by decide) (by rfl))
     (by rfl)⟩

theorem alookup_filter_ne {β : Type} (ps : List (String × β)) (k x : String)
    (h : k ≠ x) :
    alookup (ps.filter (fun kv => !(kv.1 == x))) k = alookup ps k := by
  induction ps with
  | nil => rfl
  | cons kv rest ih =>
    rw [List.filter_cons, alookup_cons]
    by_cases hx : (kv.1 == x) = true
    · have hxx : kv.1 = x := by simpa using hx
      have hkk : (kv.1 == k) = false := by
        simp only [beq_eq_false_iff_ne, ne_eq, hxx]
        exact fun he => h he.symm
      rw [if_neg (by simp [hx]), if_neg (by simp [hkk])]
      exact ih
    · rw [if_pos (by simp [hx]), alookup_cons]
      by_cases hk : (kv.1 == k) = true
      · rw [if_pos hk, if_pos hk]
      · rw [if_neg hk, if_neg hk]
        exact ih

theorem mem_eraseIdx_of_ne {α : Type} (l : List α) (i : Nat) (x y : α)
    (hy : y ∈ l) (hi : l.get? i = some x) (hne : y ≠ x) : y ∈ l.eraseIdx i := by
  induction l generalizing i with
  | nil => exact absurd hy (List.not_mem_nil _)
  | cons a t ih =>
    cases i with
    | zero =>
      rw [List.get?_cons_zero, Option.some.injEq] at hi
      subst hi
      rw [List.eraseIdx_cons_zero]
      rcases List.mem_cons.1 hy with h | h
      · exact absurd h hne
      · exact h
    | succ j =>
      rw [List.get?_cons_succ] at hi
      rw [List.eraseIdx_cons_succ]
      rcases List.mem_cons.1 hy with h | h
      · rw [h]
        exact List.mem_cons_self _ _
      · exact List.mem_cons_of_mem _ (ih j h hi)

theorem connMember_transport (g g' : Game) (pid : String)
    (hpo : g'.playerOrder = g.playerOrder) (hpl : g'.players = g.players)
    (h : ConnMember pid g) : ConnMember pid g' := by
  obtain ⟨h1, p, h2, h3⟩ := h
  exact ⟨by rw [hpo]; exact h1, p, by rw [hpl]; exact h2, h3⟩

theorem connMember_update (g g' : Game) (pid k : String) (f : Player → Player)
    (hpo : g'.playerOrder = g.playerOrder)
    (hpl : g'.players = aupdate g.players k f)
    (hf : ∀ q, (f q).connected = q.connected)
    (h : ConnMember pid g) : ConnMember pid g' := by
  obtain ⟨h1, p, h2, h3⟩ := h
  refine ⟨by rw [hpo]; exact h1, ?_⟩
  by_cases hk : pid = k
  · subst hk
    exact ⟨f p, by rw [hpl, alookup_aupdate_self, h2]; rfl, by rw [hf]; exact h3⟩
  · exact ⟨p, by rw [hpl, alookup_aupdate_ne _ _ _ _ hk]; exact h2, h3⟩

theorem connMember_update_ne (g g' : Game) (pid k : String) (f : Player → Player)
    (hpo : g'.playerOrder = g.playerOrder)
    (hpl : g'.players = aupdate g.players k f)
    (hne : pid ≠ k)
    (h : ConnMember pid g) : ConnMember pid g' := by
  obtain ⟨h1, p, h2, h3⟩ := h
  exact ⟨by rw [hpo]; exact h1, p,
    by rw [hpl, alookup_aupdate_ne _ _ _ _ hne]; exact h2, h3⟩

theorem connMember_update_to (g g' : Game) (pid k : String) (p' pv : Player)
    (hpo : g'.playerOrder = g.playerOrder)
    (hpl : g'.players = aupdate g.players k (fun q => p'))
    (hl : alookup g.players k = some pv)
    (hc : p'.connected = pv.connected)
    (h : ConnMember pid g) : ConnMember pid g' := by
  obtain ⟨h1, p, h2, h3⟩ := h
  refine ⟨by rw [hpo]; exact h1, ?_⟩
  by_cases hk : pid = k
  · subst hk
    have hp : p = pv := by
      rw [h2, Option.some.injEq] at hl
      exact hl
    refine ⟨p', by rw [hpl, alookup_aupdate_self, hl]; rfl, ?_⟩
    rw [hc, ← hp]
    exact h3
  · exact ⟨p, by rw [hpl, alookup_aupdate_ne _ _ _ _ hk]; exact h2, h3⟩

theorem connMember_mapv (g g' : Game) (pid : String) (f : Player → Player)
    (hpo : g'.playerOrder = g.playerOrder)
    (hpl : g'.players = g.players.map (fun kv => (kv.1, f kv.2)))
    (hf : ∀ q, (f q).connected = q.connected)
    (h : ConnMember pid g) : ConnMember pid g' := by
  obtain ⟨h1, p, h2, h3⟩ := h
  exact ⟨by rw [hpo]; exact h1, f p,
    by rw [hpl, alookup_map_values, h2]; rfl, by rw [hf]; exact h3⟩

theorem connMember_removeEliminatedStep (g : Game) (i : Nat) (pid : String)
    (h : ConnMember pid g) : ConnMember pid (removeEliminatedStep g i) := by
  rw [removeEliminatedStep]
  split
  · exact h
  · rename_i pid2 hpo
    split
    · exact h
    · rename_i p2 hl2
      by_cases hcond : (decide (p2.chipCount ≤ 0) && !p2.connected) = true
      · rw [if_pos hcond]
        obtain ⟨h1, p, hlp, hcp⟩ := h
        have hp2c : p2.connected = false := by
          simp only [Bool.and_eq_true, Bool.not_eq_true'] at hcond
          exact hcond.2
        have hpne : pid ≠ pid2 := by
          intro he
          subst he
          rw [hlp, Option.some.injEq] at hl2
          rw [hl2] at hcp
          rw [hcp] at hp2c
          exact absurd hp2c (by simp)
        refine ⟨?_, p, ?_, hcp⟩
        · show pid ∈ g.playerOrder.eraseIdx i
          exact mem_eraseIdx_of_ne _ i pid2 pid h1 hpo hpne
        · show alookup (g.players.filter (fun kv => !(kv.1 == pid2))) pid = some p
          rw [alookup_filter_ne _ _ _ hpne]
          exact hlp
      · rw [if_neg hcond]
        exact h

theorem connMember_removeEliminated (g : Game) (pid : String)
    (h : ConnMember pid g) : ConnMember pid g.removeEliminatedPlayers := by
  rw [Game.removeEliminatedPlayers]
  refine foldl_step_pred removeEliminatedStep (fun G => ConnMember pid G)
    _ g h ?_
  intro b i _ hb
  exact connMember_removeEliminatedStep b i pid hb

theorem connMember_distributeSidePot (g : Game) (winners : List Player)
    (sp : SidePot) (pid : String)
    (h : ConnMember pid g) : ConnMember pid (distributeSidePot g winners sp) := by
  rw [distributeSidePot]
  refine foldl_step_pred _ (fun G => ConnMember pid G) _ g h ?_
  intro b iw _ hb
  exact connMember_update b _ pid iw.2.id
    (fun p =>
      { p with chipCount := p.chipCount + Int.tdiv sp.amount (winners.length : Int) +
        (if (iw.1 : Int) < Int.tmod sp.amount (winners.length : Int) then 1 else 0) })
    rfl rfl (fun q => rfl) hb

theorem connMember_distributePots (g g2 : Game) (pid : String)
    (hok : g.distributePots = some g2) (h : ConnMember pid g) :
    ConnMember pid g2 := by
  rw [Game.distributePots] at hok
  rcases hap : g.getActivePlayers with _ | ⟨w, _ | ⟨w2, rest2⟩⟩ <;>
    rw [hap] at hok <;> dsimp only at hok
  · rw [Option.some.injEq] at hok
    subst hok
    exact h
  · rw [Option.some.injEq] at hok
    subst hok
    exact connMember_update g _ pid w.id
      (fun p => { p with chipCount := p.chipCount + g.pot }) rfl rfl
      (fun q => rfl) h
  · split_ifs at hok
    rw [Option.some.injEq] at hok
    subst hok
    have hfold : ConnMember pid (g.sidePots.foldl (fun gg sp =>
        distributeSidePot gg (g.determineWinners (w :: w2 :: rest2)) sp) g) :=
      foldl_step_pred _ (fun G => ConnMember pid G) _ g h
        (fun b sp _ hb => connMember_distributeSidePot b _ sp pid hb)
    exact connMember_transport _ _ pid rfl rfl hfold

theorem connMember_endHand (g g2 : Game) (pid : String)
    (hok : g.endHand = some g2) (h : ConnMember pid g) : ConnMember pid g2 := by
  rw [Game.endHand] at hok
  rcases hdp : (Game.calculateSidePots { g with phase := .showdown }).distributePots
    with _ | gd
  · rw [hdp] at hok
    exact absurd hok (by simp)
  · rw [hdp] at hok
    dsimp only at hok
    have h1 : ConnMember pid (Game.calculateSidePots { g with phase := .showdown }) :=
      connMember_transport _ _ pid rfl rfl h
    have h2 := connMember_distributePots _ _ pid hdp h1
    have h3 := connMember_removeEliminated gd pid h2
    split_ifs at hok <;> rw [Option.some.injEq] at hok <;> subst hok
    · exact connMember_transport _ _ pid rfl rfl h3
    · exact h3

theorem connMember_advancePhase (g g2 : Game) (pid : String)
    (hok : g.advancePhase = some g2) (h : ConnMember pid g) :
    ConnMember pid g2 := by
  cases hph : g.phase <;> simp only [Game.advancePhase, hph] at hok
  case river =>
    obtain ⟨X, hXok, hXpo, hXpl⟩ : ∃ X : Game, Game.endHand X = some g2 ∧
        X.playerOrder = g.playerOrder ∧
        X.players = g.players.map (fun kv => (kv.1, clearBet kv.2)) :=
      ⟨_, hok, rfl, rfl⟩
    exact connMember_endHand X g2 pid hXok
      (connMember_mapv g X pid clearBet hXpo hXpl (fun q => rfl) h)
  all_goals rw [Option.some.injEq] at hok
  all_goals subst hok
  all_goals exact connMember_mapv g _ pid clearBet rfl rfl (fun q => rfl) h

theorem connMember_advanceGame (g g2 : Game) (pid : String)
    (hok : g.advanceGame = some g2) (h : ConnMember pid g) :
    ConnMember pid g2 := by
  rw [Game.advanceGame] at hok
  split_ifs at hok
  · exact connMember_endHand _ _ pid hok h
  · exact connMember_advancePhase _ _ pid hok h
  · rw [Option.some.injEq] at hok
    subst hok
    exact connMember_transport _ _ pid rfl rfl h

theorem connMember_applyAction (g : Game) (pid : String) (player : Player)
    (action : PlayerAction) (amount : Int) (gr : Game × PlayerAction)
    (pid2 : String)
    (hl : alookup g.players pid = some player)
    (hok : applyAction g pid player action amount = .ok gr)
    (h : ConnMember pid2 g) : ConnMember pid2 gr.1 := by
  cases action
  case fold =>
    simp only [applyAction] at hok
    rw [Except.ok.injEq] at hok
    subst hok
    exact connMember_update g _ pid2 pid Player.foldHand rfl rfl (fun q => rfl) h
  case check =>
    simp only [applyAction] at hok
    split_ifs at hok
    rw [Except.ok.injEq] at hok
    subst hok
    exact h
  case call =>
    simp only [applyAction] at hok
    split at hok
    · contradiction
    · rename_i p' hbet
      rw [Except.ok.injEq] at hok
      subst hok
      exact connMember_update_to g _ pid2 pid p' player rfl rfl hl
        (bet_ok_facts _ _ _ hbet).2.2.1 h
  case raise =>
    simp only [applyAction] at hok
    split_ifs at hok with h1 h2
    split at hok
    · contradiction
    · rename_i p' hbet
      rw [Except.ok.injEq] at hok
      subst hok
      exact connMember_update_to g _ pid2 pid p' player rfl rfl hl
        (bet_ok_facts _ _ _ hbet).2.2.1 h
  case allIn =>
    simp only [applyAction] at hok
    split at hok
    · contradiction
    · rename_i p' hbet
      rw [Except.ok.injEq] at hok
      subst hok
      split_ifs <;>
        exact connMember_update_to g _ pid2 pid p' player rfl rfl hl
          (bet_ok_facts _ _ _ hbet).2.2.1 h

theorem connMember_processAction (g g3 : Game) (pid : String)
    (action : PlayerAction) (amount : Int) (pid2 : String)
    (hok : g.processAction pid action amount = .ok g3)
    (h : ConnMember pid2 g) : ConnMember pid2 g3 := by
  rw [Game.processAction] at hok
  split_ifs at hok with h1 h2
  all_goals try contradiction
  split at hok
  · contradiction
  · rename_i player hl
    split_ifs at hok with h3
    all_goals try contradiction
    rcases ha : applyAction g pid player action amount with e | ga
    · rw [ha] at hok
      dsimp only at hok
      contradiction
    · rw [ha] at hok
      dsimp only at hok
      split at hok
      · contradiction
      · rename_i gfin hadv
        rw [Except.ok.injEq] at hok
        subst hok
        have hga := connMember_applyAction g pid player action amount ga pid2
          hl ha h
        obtain ⟨X, hXadv, hXpo, hXpl⟩ : ∃ X : Game,
            X.advanceGame = some gfin ∧
            X.playerOrder = ga.1.playerOrder ∧
            X.players = aupdate ga.1.players pid (fun p => { p with
              lastAction := some { playerID := pid, action := ga.2, amount := amount } }) :=
          ⟨_, hadv, rfl, rfl⟩
        exact connMember_advanceGame X gfin pid2 hXadv
          (connMember_update ga.1 X pid2 pid _ hXpo hXpl (fun q => rfl) hga)

theorem moveDealer_po (x : Game) :
    x.moveDealerButton.playerOrder = x.playerOrder := by
  rw [Game.moveDealerButton]
  split_ifs <;> rfl

theorem connMember_dealHolePass (x : Game) (pid : String)
    (h : ConnMember pid x) : ConnMember pid (dealHolePass x) := by
  rw [dealHolePass]
  refine foldl_step_pred _ (fun G => ConnMember pid G) _ x h ?_
  intro b k _ hb
  split
  · rename_i p hl
    split_ifs with hact
    · exact connMember_update b _ pid k
        (fun q => { q with holeCards := q.holeCards ++ [(dealOne b.deck).1] })
        rfl rfl (fun q => rfl) hb
    · exact hb
  · exact hb

theorem connMember_postOneBlind (x : Game) (pos : Nat) (blind : Int)
    (pid : String) (h : ConnMember pid x) :
    ConnMember pid (postOneBlind x pos blind) := by
  rw [postOneBlind]
  split
  · exact h
  · rename_i pid2 hpo
    split
    · exact h
    · rename_i player hl
      rcases hbet : player.bet (min blind player.chipCount) with e | p'
      · simp only [hbet]
        exact connMember_transport x _ pid rfl rfl h
      · simp only [hbet]
        exact connMember_update_to x _ pid pid2 p' player rfl rfl hl
          (bet_ok_facts _ _ _ hbet).2.2.1 h

set_option maxHeartbeats 2000000 in
theorem connMember_startNewHand (g : Game) (deck : List Poker.Card)
    (pid : String) (h : ConnMember pid g) :
    ConnMember pid (g.startNewHand deck) := by
  obtain ⟨F, h1, h2, h3, h4⟩ : ∃ F : Game,
      (g.startNewHand deck).playerOrder = F.dealHoleCards.postBlinds.playerOrder ∧
      (g.startNewHand deck).players = F.dealHoleCards.postBlinds.players ∧
      F.playerOrder = g.playerOrder ∧
      F.players = g.players.map (fun kv => (kv.1, kv.2.resetForNewHand)) := by
    refine ⟨{ Game.moveDealerButton { g with
        handNumber := g.handNumber + 1,
        phase := .preFlop,
        pot := 0,
        sidePots := [],
        communityCards := [],
        actions := [],
        lastRaise := g.bigBlind,
        minRaise := g.bigBlind,
        players := g.players.map (fun kv => (kv.1, kv.2.resetForNewHand)) } with
      deck := deck }, rfl, rfl, ?_, ?_⟩
    · exact (moveDealer_po _).trans rfl
    · exact ((moveDealer_pp _).1).trans rfl
  have hF : ConnMember pid F :=
    connMember_mapv g F pid Player.resetForNewHand h3 h4 (fun q => rfl) h
  have hD : ConnMember pid F.dealHoleCards := by
    rw [Game.dealHoleCards]
    exact connMember_dealHolePass _ pid (connMember_dealHolePass _ pid hF)
  have hE : ConnMember pid F.dealHoleCards.postBlinds := by
    rw [Game.postBlinds]
    exact connMember_postOneBlind _ _ _ pid (connMember_postOneBlind _ _ _ pid hD)
  exact connMember_transport F.dealHoleCards.postBlinds (g.startNewHand deck)
    pid h1 h2 hE

theorem addPlayer_not_mem (g : Game) (np : Player) (deck : List Poker.Card)
    (g2 : Game) (hok : g.addPlayer np deck = .ok g2) :
    alookup g.players np.id = none := by
  rw [Game.addPlayer] at hok
  split_ifs at hok with hA hB
  all_goals try contradiction
  all_goals exact Option.not_isSome_iff_eq_none.1 hB

theorem connMember_addPlayer (g : Game) (np : Player) (deck : List Poker.Card)
    (g2 : Game) (pid : String)
    (hok : g.addPlayer np deck = .ok g2) (h : ConnMember pid g) :
    ConnMember pid g2 := by
  obtain ⟨h1, p, h2, h3⟩ := h
  rw [Game.addPlayer] at hok
  split_ifs at hok with hA hB
  all_goals try contradiction
  obtain ⟨G1, hok1, hG1po, hG1pl⟩ : ∃ G1 : Game,
      (if G1.players.length ≥ G1.minPlayers ∧ G1.phase = .waitingForPlayers
        then Except.ok (G1.startNewHand deck) else Except.ok G1)
        = (Except.ok g2 : Except String Game) ∧
      G1.playerOrder = g.playerOrder ++ [np.id] ∧
      G1.players = g.players ++ [(np.id, np)] := ⟨_, hok, rfl, rfl⟩
  have hG1 : ConnMember pid G1 :=
    ⟨by rw [hG1po]; exact List.mem_append_left _ h1, p,
      by rw [hG1pl]; exact alookup_append_some _ _ _ _ h2, h3⟩
  split_ifs at hok1
  · rw [Except.ok.injEq] at hok1
    subst hok1
    exact connMember_startNewHand _ deck pid hG1
  · rw [Except.ok.injEq] at hok1
    subst hok1
    exact hG1

theorem addPlayer_new_member (g : Game) (np : Player) (deck : List Poker.Card)
    (g2 : Game) (hok : g.addPlayer np deck = .ok g2)
    (hconn : np.connected = true) : ConnMember np.id g2 := by
  have hnone := addPlayer_not_mem g np deck g2 hok
  rw [Game.addPlayer] at hok
  split_ifs at hok with hA hB
  all_goals try contradiction
  obtain ⟨G1, hok1, hG1po, hG1pl⟩ : ∃ G1 : Game,
      (if G1.players.length ≥ G1.minPlayers ∧ G1.phase = .waitingForPlayers
        then Except.ok (G1.startNewHand deck) else Except.ok G1)
        = (Except.ok g2 : Except String Game) ∧
      G1.playerOrder = g.playerOrder ++ [np.id] ∧
      G1.players = g.players ++ [(np.id, np)] := ⟨_, hok, rfl, rfl⟩
  have hG1 : ConnMember np.id G1 := by
    refine ⟨by rw [hG1po]; exact List.mem_append_right _ (by simp), np, ?_, hconn⟩
    rw [hG1pl, alookup_append_none _ _ _ hnone, alookup_cons,
      if_pos (beq_self_eq_true _)]
  split_ifs at hok1
  · rw [Except.ok.injEq] at hok1
    subst hok1
    exact connMember_startNewHand _ deck np.id hG1
  · rw [Except.ok.injEq] at hok1
    subst hok1
    exact hG1

theorem connMember_removePlayer (g : Game) (pid : String) (g2 : Game)
    (pid2 : String)
    (hok : g.removePlayer pid = .ok g2) (hne : pid2 ≠ pid)
    (h : ConnMember pid2 g) : ConnMember pid2 g2 := by
  rw [Game.removePlayer] at hok
  split at hok
  · contradiction
  · rename_i p0 hl0
    have hg1 : ConnMember pid2 (g.setPlayer pid
        (fun p => { p with connected := false, isActive := false })) :=
      connMember_update_ne g _ pid2 pid
        (fun p => { p with connected := false, isActive := false })
        rfl rfl hne h
    obtain ⟨G1, hok1, hG1⟩ : ∃ G1 : Game,
        (if G1.getCurrentPlayerID = pid ∧ G1.phase ≠ .waitingForPlayers then
          (match G1.processAction pid .fold 0 with
           | .ok g2x => Except.ok g2x
           | .error _ => Except.ok G1)
         else Except.ok G1) = (Except.ok g2 : Except String Game) ∧
        ConnMember pid2 G1 := ⟨_, hok, hg1⟩
    split_ifs at hok1 with hTurn
    · split at hok1
      · rename_i g2x heq
        rw [Except.ok.injEq] at hok1
        subst hok1
        exact connMember_processAction _ _ pid .fold 0 pid2 heq hG1
      · rw [Except.ok.injEq] at hok1
        subst hok1
        exact hG1
    · rw [Except.ok.injEq] at hok1
      subst hok1
      exact hG1

theorem alookup_replace {β : Type} (ps : List (String × β)) (k : String) (v : β) :
    (alookup ps k).isSome →
    alookup (ps.map (fun kv => if kv.1 == k then (kv.1, v) else kv)) k = some v := by
  induction ps with
  | nil => intro h; exact absurd h (by simp [alookup])
  | cons kv rest ih =>
    intro h
    rw [List.map_cons]
    by_cases hk : (kv.1 == k) = true
    · rw [if_pos hk, alookup_cons, if_pos hk]
    · rw [if_neg hk, alookup_cons, if_neg hk]
      rw [alookup_cons, if_neg hk] at h
      exact ih h

theorem alookup_replace_ne {β : Type} (ps : List (String × β)) (k k' : String)
    (v : β) (h : k' ≠ k) :
    alookup (ps.map (fun kv => if kv.1 == k then (kv.1, v) else kv)) k'
      = alookup ps k' := by
  induction ps with
  | nil => rfl
  | cons kv rest ih =>
    rw [List.map_cons]
    by_cases hk : (kv.1 == k) = true
    · have hk1 : kv.1 = k := by simpa using hk
      have hne : (kv.1 == k') = false := by
        simp only [beq_eq_false_iff_ne, ne_eq, hk1]
        exact fun he => h he.symm
      rw [if_pos hk, alookup_cons, alookup_cons]
      dsimp only
      rw [if_neg (by simp [hne]), if_neg (by simp [hne])]
      exact ih
    · rw [if_neg hk, alookup_cons, alookup_cons]
      by_cases hkk : (kv.1 == k') = true
      · rw [if_pos hkk, if_pos hkk]
      · rw [if_neg hkk, if_neg hkk]
        exact ih

theorem alookup_setIndex_self (ps : List (String × List String)) (pid : String)
    (v : List String) : alookup (setIndex ps pid v) pid = some v := by
  rw [setIndex]
  split_ifs with h
  · exact alookup_replace ps pid v h
  · rw [alookup_append_none _ _ _ (Option.not_isSome_iff_eq_none.1 h),
      alookup_cons, if_pos (beq_self_eq_true _)]

theorem alookup_setIndex_ne (ps : List (String × List String)) (pid : String)
    (v : List String) (k : String) (h : k ≠ pid) :
    alookup (setIndex ps pid v) k = alookup ps k := by
  rw [setIndex]
  split_ifs with hs
  · exact alookup_replace_ne ps pid k v h
  · rcases hl : alookup ps k with _ | u
    · rw [alookup_append_none _ _ _ hl, alookup_cons]
      rw [if_neg (show ¬(((pid, v).1 == k) = true) from by
        intro he
        exact h ((by simpa using he : pid = k)).symm)]
      rfl
    · exact alookup_append_some _ _ _ _ hl

theorem gamesOf_setIndex_self (m m' : Manager) (pid : String) (L : List String)
    (hpl : m'.players = setIndex m.players pid L) : m'.gamesOf pid = L := by
  rw [Manager.gamesOf, hpl, alookup_setIndex_self]

theorem gamesOf_setIndex_ne (m m' : Manager) (pid : String) (L : List String)
    (k : String) (hpl : m'.players = setIndex m.players pid L) (h : k ≠ pid) :
    m'.gamesOf k = m.gamesOf k := by
  rw [Manager.gamesOf, Manager.gamesOf, hpl, alookup_setIndex_ne _ _ _ _ h]

theorem removeFirst_sublist (l : List String) (x : String) :
    (removeFirst l x).Sublist l := by
  induction l with
  | nil => exact List.Sublist.refl _
  | cons a t ih =>
    rw [removeFirst]
    by_cases ha : (a == x) = true
    · rw [if_pos ha]
      exact List.Sublist.cons a (List.Sublist.refl t)
    · rw [if_neg ha]
      exact List.Sublist.cons₂ a ih

theorem not_mem_removeFirst (l : List String) (x : String) (hnd : l.Nodup) :
    x ∉ removeFirst l x := by
  induction l with
  | nil => simp [removeFirst]
  | cons a t ih =>
    rw [removeFirst]
    rw [List.nodup_cons] at hnd
    by_cases ha : (a == x) = true
    · rw [if_pos ha]
      have ha1 : a = x := by simpa using ha
      rw [← ha1]
      exact hnd.1
    · rw [if_neg ha]
      intro hmem
      rcases List.mem_cons.1 hmem with he | hm
      · exact absurd he.symm (by simpa using ha)
      · exact ih hnd.2 hm

theorem alookup_filter_of {β : Type} (ps : List (String × β)) (k : String)
    (v : β) (f : String × β → Bool) (hl : alookup ps k = some v)
    (hf : f (k, v) = true) : alookup (ps.filter f) k = some v := by
  induction ps with
  | nil => exact absurd hl (by simp [alookup])
  | cons kv rest ih =>
    rw [alookup_cons] at hl
    rw [List.filter_cons]
    by_cases hk : (kv.1 == k) = true
    · rw [if_pos hk, Option.some.injEq] at hl
      have hk1 : kv.1 = k := by simpa using hk
      have hkv : kv = (k, v) := by
        rcases kv with ⟨a, b⟩
        dsimp only at hk1 hl
        rw [hk1, hl]
      rw [if_pos (by rw [hkv]; exact hf), alookup_cons, if_pos hk]
      rw [hkv]
    · rw [if_neg hk] at hl
      by_cases hfk : f kv = true
      · rw [if_pos hfk, alookup_cons, if_neg hk]
        exact ih hl
      · rw [if_neg hfk]
        exact ih hl

theorem mwf_createGame (m m' : Manager) (gid name : String) (config : GameConfig)
    (hok : m.CreateGame gid name config = .ok m') (hw : MWf m) : MWf m' := by
  obtain ⟨hnd, hlnd, hinv⟩ := hw
  rw [Manager.CreateGame] at hok
  split_ifs at hok with hE
  all_goals try contradiction
  rw [Except.ok.injEq] at hok
  subst hok
  refine ⟨?_, fun k => hlnd k, ?_⟩
  · show ((m.games ++ [(gid, NewGame gid name config)]).map Prod.fst).Nodup
    rw [List.map_append]
    refine List.Nodup.append hnd (by simp) ?_
    intro a ha hb
    simp only [List.map_cons, List.map_nil, List.mem_singleton] at hb
    subst hb
    exact hE ((alookup_isSome_iff _ _).2 ha)
  · intro pid2 gid2 hmem
    obtain ⟨g0, hl0, hc0⟩ := hinv pid2 gid2 hmem
    refine ⟨g0, ?_, hc0⟩
    show alookup (m.games ++ [(gid, NewGame gid name config)]) gid2 = some g0
    exact alookup_append_some _ _ _ _ hl0

theorem mwf_cleanup (m : Manager) (stale : List String) (hw : MWf m) :
    MWf (m.CleanupInactiveGames stale) := by
  obtain ⟨hnd, hlnd, hinv⟩ := hw
  refine ⟨?_, fun k => hlnd k, ?_⟩
  · show ((m.games.filter (fun kv =>
      !(stale.contains kv.1 && kv.2.players.length == 0))).map Prod.fst).Nodup
    exact hnd.sublist (List.Sublist.map Prod.fst (List.filter_sublist _))
  · intro pid gid hmem
    obtain ⟨g0, hl0, hc0⟩ := hinv pid gid hmem
    refine ⟨g0, ?_, hc0⟩
    show alookup (m.games.filter (fun kv =>
      !(stale.contains kv.1 && kv.2.players.length == 0))) gid = some g0
    refine alookup_filter_of _ _ _ _ hl0 ?_
    obtain ⟨hmem2, p, hlp, hcp⟩ := hc0
    have hne : g0.players ≠ [] := by
      intro he
      rw [he] at hlp
      exact absurd hlp (by simp [alookup])
    have hlen : (g0.players.length == 0) = false := by
      simp [List.length_eq_zero, hne]
    simp [hlen]

theorem mwf_processAction (m m' : Manager) (gid pid : String) (a : PlayerAction)
    (amt : Int) (hok : m.ProcessAction gid pid a amt = .ok m') (hw : MWf m) :
    MWf m' := by
  obtain ⟨hnd, hlnd, hinv⟩ := hw
  rw [Manager.ProcessAction] at hok
  split at hok
  · contradiction
  · rename_i game hg
    rcases hpa : game.processAction pid a amt with e | game2
    · rw [hpa] at hok
      dsimp only at hok
      contradiction
    · rw [hpa] at hok
      dsimp only at hok
      rw [Except.ok.injEq] at hok
      subst hok
      refine ⟨?_, fun k => hlnd k, ?_⟩
      · show ((aupdate m.games gid (fun _ => game2)).map Prod.fst).Nodup
        rw [aupdate_keys]
        exact hnd
      · intro pid2 gid2 hmem
        obtain ⟨g0, hl0, hc0⟩ := hinv pid2 gid2 hmem
        by_cases hgg : gid2 = gid
        · subst hgg
          have hg0 : game = g0 := by
            rw [hg, Option.some.injEq] at hl0
            exact hl0
          refine ⟨game2, ?_, ?_⟩
          · show alookup (aupdate m.games gid2 (fun _ => game2)) gid2 = some game2
            rw [alookup_aupdate_self, hg]
            rfl
          · exact connMember_processAction game game2 pid a amt pid2 hpa
              (hg0 ▸ hc0)
        · refine ⟨g0, ?_, hc0⟩
          show alookup (aupdate m.games gid (fun _ => game2)) gid2 = some g0
          rw [alookup_aupdate_ne _ _ _ _ hgg]
          exact hl0

theorem mwf_joinGame (m m' : Manager) (gid pid uname : String) (buyIn : Int)
    (deck : List Poker.Card)
    (hok : m.JoinGame gid pid uname buyIn deck = .ok m') (hw : MWf m) : MWf m' := by
  obtain ⟨hnd, hlnd, hinv⟩ := hw
  rw [Manager.JoinGame] at hok
  split at hok
  · contradiction
  · rename_i game hg
    split_ifs at hok with hT hB
    all_goals try contradiction
    have hok2 : (if findAvailableSeat game = -1 then
          (Except.error "game is full" : Except String Manager)
        else
          match game.addPlayer
              (NewPlayer pid uname buyIn (findAvailableSeat game).toNat) deck with
          | .error e => .error e
          | .ok game2 =>
            .ok { m with
                  games := aupdate m.games gid (fun _ => game2),
                  players := setIndex m.players pid (m.gamesOf pid ++ [gid]) })
        = Except.ok m' := hok
    split_ifs at hok2 with hS
    all_goals try contradiction
    rcases ha : game.addPlayer
        (NewPlayer pid uname buyIn (findAvailableSeat game).toNat) deck
      with e | game2
    · rw [ha] at hok2
      dsimp only at hok2
      contradiction
    · rw [ha] at hok2
      dsimp only at hok2
      rw [Except.ok.injEq] at hok2
      subst hok2
      have hnone : alookup game.players pid = none :=
        addPlayer_not_mem game _ deck game2 ha
      have hgidnot : gid ∉ m.gamesOf pid := by
        intro hmem
        obtain ⟨g0, hl0, hc0⟩ := hinv pid gid hmem
        have hg0 : game = g0 := by
          rw [hg, Option.some.injEq] at hl0
          exact hl0
        obtain ⟨_, p, hlp, _⟩ := hc0
        rw [← hg0, hnone] at hlp
        exact absurd hlp (by simp)
      refine ⟨?_, ?_, ?_⟩
      · show ((aupdate m.games gid (fun _ => game2)).map Prod.fst).Nodup
        rw [aupdate_keys]
        exact hnd
      · intro k
        by_cases hk : k = pid
        · subst hk
          rw [gamesOf_setIndex_self m _ k (m.gamesOf k ++ [gid]) rfl]
          refine List.Nodup.append (hlnd k) (by simp) ?_
          intro a haa hab
          simp only [List.mem_singleton] at hab
          subst hab
          exact hgidnot haa
        · rw [gamesOf_setIndex_ne m _ pid (m.gamesOf pid ++ [gid]) k rfl hk]
          exact hlnd k
      · intro pid2 gid2 hmem
        by_cases hp2 : pid2 = pid
        · subst hp2
          rw [gamesOf_setIndex_self m _ pid2 (m.gamesOf pid2 ++ [gid]) rfl] at hmem
          rcases List.mem_append.1 hmem with hold | hnew
          · have hne : gid2 ≠ gid := fun he => hgidnot (he ▸ hold)
            obtain ⟨g0, hl0, hc0⟩ := hinv pid2 gid2 hold
            refine ⟨g0, ?_, hc0⟩
            show alookup (aupdate m.games gid (fun _ => game2)) gid2 = some g0
            rw [alookup_aupdate_ne _ _ _ _ hne]
            exact hl0
          · simp only [List.mem_singleton] at hnew
            subst hnew
            refine ⟨game2, ?_, ?_⟩
            · show alookup (aupdate m.games gid2 (fun _ => game2)) gid2 = some game2
              rw [alookup_aupdate_self, hg]
              rfl
            · exact addPlayer_new_member game _ deck game2 ha rfl
        · rw [gamesOf_setIndex_ne m _ pid (m.gamesOf pid ++ [gid]) pid2 rfl hp2]
            at hmem
          obtain ⟨g0, hl0, hc0⟩ := hinv pid2 gid2 hmem
          by_cases hgg : gid2 = gid
          · subst hgg
            have hg0 : game = g0 := by
              rw [hg, Option.some.injEq] at hl0
              exact hl0
            refine ⟨game2, ?_, ?_⟩
            · show alookup (aupdate m.games gid2 (fun _ => game2)) gid2 = some game2
              rw [alookup_aupdate_self, hg]
              rfl
            · exact connMember_addPlayer game _ deck game2 pid2 ha (hg0 ▸ hc0)
          · refine ⟨g0, ?_, hc0⟩
            show alookup (aupdate m.games gid (fun _ => game2)) gid2 = some g0
            rw [alookup_aupdate_ne _ _ _ _ hgg]
            exact hl0

theorem mwf_leaveGame (m m' : Manager) (gid pid : String)
    (hok : m.LeaveGame gid pid = .ok m') (hw : MWf m) : MWf m' := by
  obtain ⟨hnd, hlnd, hinv⟩ := hw
  rw [Manager.LeaveGame] at hok
  split at hok
  · contradiction
  · rename_i game hg
    rcases hrm : game.removePlayer pid with e | game2
    · rw [hrm] at hok
      dsimp only at hok
      contradiction
    · rw [hrm] at hok
      dsimp only at hok
      split_ifs at hok with hEmpty
      · rw [Except.ok.injEq] at hok
        subst hok
        have hnd2 : ((aupdate m.games gid (fun _ => game2)).map Prod.fst).Nodup := by
          rw [aupdate_keys]
          exact hnd
        refine ⟨?_, ?_, ?_⟩
        · show ((((aupdate m.games gid (fun _ => game2)).filter
            (fun kv => !(kv.1 == gid))).map Prod.fst)).Nodup
          exact hnd2.sublist (List.Sublist.map Prod.fst (List.filter_sublist _))
        · intro k
          by_cases hk : k = pid
          · subst hk
            rw [gamesOf_setIndex_self m _ k (removeFirst (m.gamesOf k) gid) rfl]
            exact (hlnd k).sublist (removeFirst_sublist _ _)
          · rw [gamesOf_setIndex_ne m _ pid (removeFirst (m.gamesOf pid) gid) k
              rfl hk]
            exact hlnd k
        · intro pid2 gid2 hmem
          have hpl : game2.players = [] := by
            rcases hp : game2.players with _ | _
            · rfl
            · rw [hp] at hEmpty
              exact absurd hEmpty (by simp)
          by_cases hp2 : pid2 = pid
          · subst hp2
            rw [gamesOf_setIndex_self m _ pid2 (removeFirst (m.gamesOf pid2) gid)
              rfl] at hmem
            have hne : gid2 ≠ gid := by
              intro he
              subst he
              exact not_mem_removeFirst _ _ (hlnd pid2) hmem
            obtain ⟨g0, hl0, hc0⟩ := hinv pid2 gid2
              ((removeFirst_sublist _ _).subset hmem)
            refine ⟨g0, ?_, hc0⟩
            show alookup ((aupdate m.games gid (fun _ => game2)).filter
              (fun kv => !(kv.1 == gid))) gid2 = some g0
            rw [alookup_filter_ne _ _ _ hne, alookup_aupdate_ne _ _ _ _ hne]
            exact hl0
          · rw [gamesOf_setIndex_ne m _ pid (removeFirst (m.gamesOf pid) gid) pid2
              rfl hp2] at hmem
            obtain ⟨g0, hl0, hc0⟩ := hinv pid2 gid2 hmem
            by_cases hgg : gid2 = gid
            · subst hgg
              exfalso
              have hg0 : game = g0 := by
                rw [hg, Option.some.injEq] at hl0
                exact hl0
              have hc2 := connMember_removePlayer game pid game2 pid2 hrm hp2
                (hg0 ▸ hc0)
              obtain ⟨_, p, hlp, _⟩ := hc2
              rw [hpl] at hlp
              exact absurd hlp (by simp [alookup])
            · refine ⟨g0, ?_, hc0⟩
              show alookup ((aupdate m.games gid (fun _ => game2)).filter
                (fun kv => !(kv.1 == gid))) gid2 = some g0
              rw [alookup_filter_ne _ _ _ hgg, alookup_aupdate_ne _ _ _ _ hgg]
              exact hl0
      · rw [Except.ok.injEq] at hok
        subst hok
        refine ⟨?_, ?_, ?_⟩
        · show ((aupdate m.games gid (fun _ => game2)).map Prod.fst).Nodup
          rw [aupdate_keys]
          exact hnd
        · intro k
          by_cases hk : k = pid
          · subst hk
            rw [gamesOf_setIndex_self m _ k (removeFirst (m.gamesOf k) gid) rfl]
            exact (hlnd k).sublist (removeFirst_sublist _ _)
          · rw [gamesOf_setIndex_ne m _ pid (removeFirst (m.gamesOf pid) gid) k
              rfl hk]
            exact hlnd k
        · intro pid2 gid2 hmem
          by_cases hp2 : pid2 = pid
          · subst hp2
            rw [gamesOf_setIndex_self m _ pid2 (removeFirst (m.gamesOf pid2) gid)
              rfl] at hmem
            have hne : gid2 ≠ gid := by
              intro he
              subst he
              exact not_mem_removeFirst _ _ (hlnd pid2) hmem
            obtain ⟨g0, hl0, hc0⟩ := hinv pid2 gid2
              ((removeFirst_sublist _ _).subset hmem)
            refine ⟨g0, ?_, hc0⟩
            show alookup (aupdate m.games gid (fun _ => game2)) gid2 = some g0
            rw [alookup_aupdate_ne _ _ _ _ hne]
            exact hl0
          · rw [gamesOf_setIndex_ne m _ pid (removeFirst (m.gamesOf pid) gid) pid2
              rfl hp2] at hmem
            obtain ⟨g0, hl0, hc0⟩ := hinv pid2 gid2 hmem
            by_cases hgg : gid2 = gid
            · subst hgg
              have hg0 : game = g0 := by
                rw [hg, Option.some.injEq] at hl0
                exact hl0
              refine ⟨game2, ?_, ?_⟩
              · show alookup (aupdate m.games gid2 (fun _ => game2)) gid2
                  = some game2
                rw [alookup_aupdate_self, hg]
                rfl
              · exact connMember_removePlayer game pid game2 pid2 hrm hp2
                  (hg0 ▸ hc0)
            · refine ⟨g0, ?_, hc0⟩
              show alookup (aupdate m.games gid (fun _ => game2)) gid2 = some g0
              rw [alookup_aupdate_ne _ _ _ _ hgg]
              exact hl0

theorem mwf_init : MWf NewManager := by
  refine ⟨by simp [NewManager], fun pid => ?_, fun pid gid hmem => ?_⟩
  · show (NewManager.gamesOf pid).Nodup
    have : NewManager.gamesOf pid = [] := rfl
    rw [this]
    exact List.nodup_nil
  · have : NewManager.gamesOf pid = [] := rfl
    rw [this] at hmem
    exact absurd hmem (List.not_mem_nil _)

theorem mwf_step (m m' : Manager) (hst : MStep m m') (hw : MWf m) : MWf m' := by
  cases hst with
  | createGame a b c d e => exact mwf_createGame _ _ _ _ _ e hw
  | joinGame a b c d e f g => exact mwf_joinGame _ _ _ _ _ _ _ g hw
  | leaveGame a b c d => exact mwf_leaveGame _ _ _ _ d hw
  | processAct a b c d e f => exact mwf_processAction _ _ _ _ _ _ f hw
  | cleanup a => exact mwf_cleanup _ a hw

/-- Claim C6 (amended): in every state reachable by Manager operations, the
player-to-games index is sound: every gameID in a player's set names a live
game whose seat order lists that player, still present and connected. The
converse inclusion of the claimed iff fails (see the counterexample): after
LeaveGame the index entry is gone while RemovePlayer leaves the player in the
seat order, merely disconnected. -/
theorem manager_forward_invariant (m : Manager) (h : ReachableM m) : MInv m := by
  have hw : MWf m := by
    induction h with
    | init => exact mwf_init
    | step hr hst ih => exact mwf_step _ _ hst ih
  exact hw.2.2

/-- Witness for C6 at the initial manager state. -/
theorem manager_forward_invariant_witness : MInv NewManager :=
  manager_forward_invariant NewManager ReachableM.init

/-- Claim C9: Deal on an empty deck errors and leaves the deck unchanged;
DealMultiple errors and removes nothing when the deck is short, and removes
and returns exactly the first n cards otherwise: all-or-nothing. -/
theorem deck_deal_all_or_nothing (d : List Poker.Card) (n : Nat) :
    (d.length = 0 → Poker.DeckDeal d = (.error "cannot deal from empty deck", d)) ∧
    (d.length < n → Poker.DealMultiple d n = (.error "not enough cards in deck", d)) ∧
    (n ≤ d.length → Poker.DealMultiple d n = (.ok (d.take n), d.drop n)) := by
  refine ⟨?_, ?_, ?_⟩
  · intro h
    rw [List.length_eq_zero] at h
    subst h
    rfl
  · intro h
    simp [Poker.DealMultiple, h]
  · intro h
    have hlt : ¬d.length < n := not_lt.mpr h
    rw [Poker.DealMultiple, if_neg hlt]
    clear hlt
    induction n generalizing d with
    | zero => simp [Poker.dealLoop]
    | succ k ih =>
      match d, h with
      | c :: rest, h =>
        have hk : k ≤ rest.length := by simpa using h
        rw [Poker.dealLoop, Poker.DeckDeal]
        simp only [ih rest hk, List.take_succ_cons, List.drop_succ_cons]

/-- Witness for claim C9 at concrete decks. -/
theorem deck_deal_all_or_nothing_witness :
    Poker.DealMultiple [⟨2, 0⟩, ⟨3, 1⟩, ⟨4, 2⟩] 2 = (.ok [⟨2, 0⟩, ⟨3, 1⟩], [⟨4, 2⟩]) ∧
    Poker.DealMultiple [⟨2, 0⟩] 5 = (.error "not enough cards in deck", [⟨2, 0⟩]) ∧
    Poker.DeckDeal ([] : List Poker.Card) = (.error "cannot deal from empty deck", []) := by
  refine ⟨?_, ?_, ?_⟩
  · have h := (deck_deal_all_or_nothing [⟨2, 0⟩, ⟨3, 1⟩, ⟨4, 2⟩] 2).2.2 (by decide)
    simpa using h
  · have h := (deck_deal_all_or_nothing [⟨2, 0⟩] 5).2.1 (by decide)
    simpa using h
  · have h := (deck_deal_all_or_nothing ([] : List Poker.Card) 0).1 rfl
    simpa using h
